import Mathlib

/-!
Verification of the poker-hand ranking engine in `pokerkata.py`.

The Python source is shallowly embedded below.  Conventions used throughout:

* Python `Face` objects carry `value = faces.index(rep)`; equality/ordering use
  only `value`, and `rep` is determined by `value`.  We model a face as
  `Fin 13` (its `value`) and recover the `rep` string with `faceRep`.
* Python exceptions are modelled with `Except PyError`; a function that cannot
  raise simply returns its value.  `IndexError` arises from indexing past a
  list's end, `InvalidCardDeck` from the explicit `raise` statements (with
  their messages), `TypeError` marks branches where Python would compare
  `None` with a `Face` (these branches are unreachable, see the proofs).
* Python's `None`-or-value results are `Option`; truthiness of a detection
  result corresponds to `Option.isSome` (a `Face` object and a non-empty list
  are truthy, `None` and `[]` are falsy).
* A Python `set` of cards is modelled by the list of its elements in
  iteration order; `pySetOfCards` reproduces CPython insertion semantics
  (an element is dropped iff an already-present element has the same hash
  *and* compares equal), under the standard assumption that distinct hash
  keys do not collide.
-/

namespace Poker

/-- Python exceptions that the source can raise. -/
inductive PyError where
  | indexError : PyError
  | invalidCardDeck : String → PyError
  | typeError : PyError
deriving DecidableEq

/-- `class Suit(Enum): CLUBS = 'C'; DIAMONDS = 'D'; HEARTS = 'H'; SPADES = 'S'`. -/
inductive Suit where
  | clubs | diamonds | hearts | spades
deriving DecidableEq

/-- A face is its sort value: the index into `Face.faces`
(`['2','3','4','5','6','7','8','9','T','J','Q','K','A']`), ascending. -/
abbrev Face : Type := Fin 13

/-- `Face.faces`, the 13 face symbols in ascending sort order. -/
def faces : List String :=
  ["2", "3", "4", "5", "6", "7", "8", "9", "T", "J", "Q", "K", "A"]

/-- `str(face)` / `face.rep`: the symbol of a face value. -/
def faceRep (f : Face) : String := faces.getD f.val ""

/-- `class Card`: a face plus a suit. -/
structure Card where
  face : Face
  suit : Suit
deriving DecidableEq

/-- `Card.__eq__`: cards compare by face only, never by suit. -/
def Card.pyEq (c d : Card) : Bool := c.face == d.face

/-- `Card.__hash__` is `hash((self.face, self.suit))`; with `Face.__hash__`
hashing the (face-determined) `rep`, the hash is determined by — and, assuming
no hash collisions, distinguishes — the `(face, suit)` pair. -/
def Card.hashKey (c : Card) : Face × Suit := (c.face, c.suit)

/-- One insertion step of a CPython `set` of cards: the new card is dropped
iff some already-present card has the same hash and compares `==` equal. -/
def pySetInsert (s : List Card) (c : Card) : List Card :=
  if s.any (fun d => d.hashKey == c.hashKey && d.pyEq c) then s else s ++ [c]

/-- Building a CPython `set` from cards in the order they are supplied. -/
def pySetOfCards (l : List Card) : List Card := l.foldl pySetInsert []

/-- `class Hand`: an owner label (`colour`) plus the card set's elements
(in iteration order).  `faceCounts` / `suitCounts` are the cached dicts of
`__init__`; being derived data, they appear below as functions. -/
structure Hand where
  colour : String
  cards : List Card
deriving DecidableEq

/-- `faceCounts[face]`: how many cards of the hand carry the given face
(`len` of the `_grouped(lambda x: x.face)` bucket; 0 when absent). -/
def Hand.faceCount (h : Hand) (f : Face) : Nat :=
  (h.cards.filter (fun c => c.face == f)).length

/-- `suitCounts[suit]`: how many cards of the hand carry the given suit. -/
def Hand.suitCount (h : Hand) (s : Suit) : Nat :=
  (h.cards.filter (fun c => c.suit == s)).length

/-- Insert a card into a face-descending list, mirroring one step of
`sorted(self.cards, reverse=True)` (cards compare by face only). -/
def insertDesc (c : Card) : List Card → List Card
  | [] => [c]
  | d :: ds => if d.face < c.face then c :: d :: ds else d :: insertDesc c ds

/-- `descending()`: the hand's cards sorted by face value, descending.
(Only the face sequence of the result is ever observed, so the unspecified
relative order of equal-faced cards in Python's stable sort is immaterial.) -/
def Hand.descending (h : Hand) : List Card := h.cards.foldr insertDesc []

/-- The four suits (order immaterial: suits with a given count are distinct). -/
def suitOrder : List Suit := [.clubs, .diamonds, .hearts, .spades]

/-- All 13 faces in ascending sort order (as `Fin 13` values). -/
def faceRange : List Face := List.finRange 13

/-- `_facesOccuringTimes(numTimes)`: the faces occurring exactly `numTimes`
times, sorted descending.  Python filters the (present) keys of `faceCounts`
and sorts them descending; for `numTimes ≥ 1` that is exactly the ascending
enumeration of all 13 faces filtered by the count, reversed. -/
def Hand.facesOccuringTimes (h : Hand) (numTimes : Nat) : List Face :=
  (faceRange.filter (fun f => h.faceCount f == numTimes)).reverse

/-- `_suitsOccuringTimes(numTimes)`: the suits occurring exactly `numTimes`
times (a plain list, no sorting). -/
def Hand.suitsOccuringTimes (h : Hand) (numTimes : Nat) : List Suit :=
  suitOrder.filter (fun s => h.suitCount s == numTimes)

/-- `pair()`: highest face occurring exactly twice plus the residual hand of
the other cards, or `(None, self)`. -/
def Hand.pair (h : Hand) : Option Face × Hand :=
  match h.facesOccuringTimes 2 with
  | [] => (none, h)
  | f :: _ => (some f, ⟨h.colour, h.cards.filter (fun c => c.face != f)⟩)

/-- `pairs()`: the two highest faces occurring exactly twice plus the residual
hand, or `(None, None, self)` when fewer than two faces qualify. -/
def Hand.pairs (h : Hand) : Option Face × Option Face × Hand :=
  match h.facesOccuringTimes 2 with
  | f1 :: f2 :: _ =>
      (some f1, some f2,
        ⟨h.colour, h.cards.filter (fun c => c.face != f1 && c.face != f2)⟩)
  | _ => (none, none, h)

/-- `triplet()`: highest face occurring exactly three times plus the residual
hand, or `(None, self)`. -/
def Hand.triplet (h : Hand) : Option Face × Hand :=
  match h.facesOccuringTimes 3 with
  | [] => (none, h)
  | f :: _ => (some f, ⟨h.colour, h.cards.filter (fun c => c.face != f)⟩)

/-- `quartet()`: highest face occurring exactly four times plus the residual
hand, or `(None, self)`. -/
def Hand.quartet (h : Hand) : Option Face × Hand :=
  match h.facesOccuringTimes 4 with
  | [] => (none, h)
  | f :: _ => (some f, ⟨h.colour, h.cards.filter (fun c => c.face != f)⟩)

/-- The face values of `descending()`, as Python integers. -/
def Hand.descendingFaceValues (h : Hand) : List Int :=
  h.descending.map (fun c => (c.face.val : Int))

/-- Python list indexing: `l[i]` raises `IndexError` past the end
(no negative indices occur in the source). -/
def listIdx (l : List Int) (i : Nat) : Except PyError Int :=
  match l.get? i with
  | some v => .ok v
  | none => .error .indexError

/-- `straight()`: top face of the run when the five descending face values are
exactly consecutive, `None` otherwise.  The conjunction is evaluated left to
right with Python short-circuiting, so an index past the end raises
`IndexError` only if all earlier comparisons succeeded. -/
def Hand.straight (h : Hand) : Except PyError (Option Face) :=
  match listIdx h.descendingFaceValues 0 with
  | .error e => .error e
  | .ok v0 =>
  match listIdx h.descendingFaceValues 1 with
  | .error e => .error e
  | .ok v1 =>
  if v0 - 1 = v1 then
    match listIdx h.descendingFaceValues 2 with
    | .error e => .error e
    | .ok v2 =>
    if v1 - 1 = v2 then
      match listIdx h.descendingFaceValues 3 with
      | .error e => .error e
      | .ok v3 =>
      if v2 - 1 = v3 then
        match listIdx h.descendingFaceValues 4 with
        | .error e => .error e
        | .ok v4 =>
        if v3 - 1 = v4 then
          match h.descending with
          | [] => .error .indexError
          | c :: _ => .ok (some c.face)
        else .ok none
      else .ok none
    else .ok none
  else .ok none

/-- `isFlush()`: returns `_suitsOccuringTimes(5)`; only its truthiness
(non-emptiness) is ever consumed. -/
def Hand.isFlush (h : Hand) : Bool := !(h.suitsOccuringTimes 5).isEmpty

/-- `fullHouse()`: the triplet's face when the residual of `triplet()` holds a
pair, `None` otherwise. -/
def Hand.fullHouse (h : Hand) : Option Face :=
  match h.triplet with
  | (some t, remainingHand) =>
    match remainingHand.pair with
    | (some _, _) => some t
    | (none, _) => none
  | (none, _) => none

/-- `class Result`: a draw, or a win carrying the winning colour and reason. -/
inductive Result where
  | draw : Result
  | win : String → String → Result
deriving DecidableEq

/-- `Result.isDraw()`. -/
def Result.isDraw : Result → Bool
  | .draw => true
  | .win _ _ => false

/-- `compareFaces`: win for the holder of the larger face, with the tie-break
reason suffix `": f over g"`; draw when the faces are equal. -/
def compareFaces (face1 face2 : Face) (hand1 hand2 : Hand) (reason : String) :
    Result :=
  if face2 < face1 then
    .win hand1.colour (reason ++ ": " ++ faceRep face1 ++ " over " ++ faceRep face2)
  else if face1 < face2 then
    .win hand2.colour (reason ++ ": " ++ faceRep face2 ++ " over " ++ faceRep face1)
  else .draw

/-- `neitherOrOnlyOne`: `None` when neither hand qualifies, an outright win
with the bare reason when exactly one does, a draw sentinel when both do. -/
def neitherOrOnlyOne (appliesTo1 appliesTo2 : Bool) (hand1 hand2 : Hand)
    (reason : String) : Option Result :=
  if !appliesTo1 && !appliesTo2 then none
  else if appliesTo1 && !appliesTo2 then some (.win hand1.colour reason)
  else if !appliesTo1 && appliesTo2 then some (.win hand2.colour reason)
  else some .draw

/-- `deepComparison` (the inner function of `highCard`): walk the zipped
descending card lists, comparing faces; recurse on a positional draw. -/
def deepComparison (hand1 hand2 : Hand) (reason : String) :
    List (Card × Card) → Result
  | [] => .draw
  | (c1, c2) :: rest =>
    let result := compareFaces c1.face c2.face hand1 hand2 reason
    if result.isDraw then deepComparison hand1 hand2 reason rest else result

/-- `highCard`: recursive kicker comparison over the zipped descending card
sequences (default reason `'High Card'` is supplied at the call sites). -/
def highCard (hand1 hand2 : Hand) (reason : String) : Result :=
  deepComparison hand1 hand2 reason (hand1.descending.zip hand2.descending)

/-- `twoOfAKind` ranker.  (The Python local bindings `pairFace1`,
`remainingHand1`, … are inlined as the projections of `pair()`'s pure
result; `result` rebindings are likewise inlined.) -/
def twoOfAKind (hand1 hand2 : Hand) (reason : String) :
    Except PyError (Option Result) :=
  match neitherOrOnlyOne hand1.pair.1.isSome hand2.pair.1.isSome hand1 hand2 reason with
  | none => .ok none
  | some result =>
    if result.isDraw then
      match hand1.pair.1, hand2.pair.1 with
      | some pairFace1, some pairFace2 =>
        if (compareFaces pairFace1 pairFace2 hand1 hand2 reason).isDraw then
          .ok (some (highCard hand1.pair.2 hand2.pair.2 reason))
        else .ok (some (compareFaces pairFace1 pairFace2 hand1 hand2 reason))
      | _, _ => .error .typeError
    else .ok (some result)

/-- `twoPairs` ranker. -/
def twoPairs (hand1 hand2 : Hand) (reason : String) :
    Except PyError (Option Result) :=
  match neitherOrOnlyOne (hand1.pairs.1.isSome && hand1.pairs.2.1.isSome)
      (hand2.pairs.1.isSome && hand2.pairs.2.1.isSome) hand1 hand2 reason with
  | none => .ok none
  | some result =>
    if result.isDraw then
      match hand1.pairs.1, hand2.pairs.1 with
      | some highPairFace1, some highPairFace2 =>
        if (compareFaces highPairFace1 highPairFace2 hand1 hand2 reason).isDraw then
          match hand1.pairs.2.1, hand2.pairs.2.1 with
          | some lowPairFace1, some lowPairFace2 =>
            if (compareFaces lowPairFace1 lowPairFace2 hand1 hand2 reason).isDraw then
              .ok (some (highCard hand1.pairs.2.2 hand2.pairs.2.2 reason))
            else .ok (some (compareFaces lowPairFace1 lowPairFace2 hand1 hand2 reason))
          | _, _ => .error .typeError
        else .ok (some (compareFaces highPairFace1 highPairFace2 hand1 hand2 reason))
      | _, _ => .error .typeError
    else .ok (some result)

/-- `threeOfAKind` ranker: a matched-face tie raises `InvalidCardDeck`. -/
def threeOfAKind (hand1 hand2 : Hand) (reason : String) :
    Except PyError (Option Result) :=
  match neitherOrOnlyOne hand1.triplet.1.isSome hand2.triplet.1.isSome hand1 hand2 reason with
  | none => .ok none
  | some result =>
    if result.isDraw then
      match hand1.triplet.1, hand2.triplet.1 with
      | some tripletFace1, some tripletFace2 =>
        if (compareFaces tripletFace1 tripletFace2 hand1 hand2 reason).isDraw then
          .error (.invalidCardDeck "Two triplets with same faces?")
        else .ok (some (compareFaces tripletFace1 tripletFace2 hand1 hand2 reason))
      | _, _ => .error .typeError
    else .ok (some result)

/-- `straight` ranker: both-qualify ties stop at face comparison (can draw). -/
def straight (hand1 hand2 : Hand) (reason : String) :
    Except PyError (Option Result) :=
  match hand1.straight with
  | .error e => .error e
  | .ok straightFace1 =>
  match hand2.straight with
  | .error e => .error e
  | .ok straightFace2 =>
  match neitherOrOnlyOne straightFace1.isSome straightFace2.isSome hand1 hand2 reason with
  | none => .ok none
  | some result =>
    if result.isDraw then
      match straightFace1, straightFace2 with
      | some f1, some f2 => .ok (some (compareFaces f1 f2 hand1 hand2 reason))
      | _, _ => .error .typeError
    else .ok (some result)

/-- `flush` ranker: both-qualify ties fall back to `highCard`. -/
def flush (hand1 hand2 : Hand) (reason : String) :
    Except PyError (Option Result) :=
  match neitherOrOnlyOne hand1.isFlush hand2.isFlush hand1 hand2 reason with
  | none => .ok none
  | some result =>
    if result.isDraw then .ok (some (highCard hand1 hand2 reason))
    else .ok (some result)

/-- `fullHouse` ranker: a matched-face tie raises `InvalidCardDeck`. -/
def fullHouse (hand1 hand2 : Hand) (reason : String) :
    Except PyError (Option Result) :=
  match neitherOrOnlyOne hand1.fullHouse.isSome hand2.fullHouse.isSome hand1 hand2 reason with
  | none => .ok none
  | some result =>
    if result.isDraw then
      match hand1.fullHouse, hand2.fullHouse with
      | some f1, some f2 =>
        if (compareFaces f1 f2 hand1 hand2 reason).isDraw then
          .error (.invalidCardDeck "Two triplets with same faces?")
        else .ok (some (compareFaces f1 f2 hand1 hand2 reason))
      | _, _ => .error .typeError
    else .ok (some result)

/-- `fourOfAKind` ranker: a matched-face tie raises `InvalidCardDeck`. -/
def fourOfAKind (hand1 hand2 : Hand) (reason : String) :
    Except PyError (Option Result) :=
  match neitherOrOnlyOne hand1.quartet.1.isSome hand2.quartet.1.isSome hand1 hand2 reason with
  | none => .ok none
  | some result =>
    if result.isDraw then
      match hand1.quartet.1, hand2.quartet.1 with
      | some quartetFace1, some quartetFace2 =>
        if (compareFaces quartetFace1 quartetFace2 hand1 hand2 reason).isDraw then
          .error (.invalidCardDeck "Two quartets with same faces?")
        else .ok (some (compareFaces quartetFace1 quartetFace2 hand1 hand2 reason))
      | _, _ => .error .typeError
    else .ok (some result)

/-- `straightFlush` ranker: qualification is `straight() and isFlush()`
(`hand1`'s detectors are evaluated before `hand2`'s, so an exception from
`hand1.straight()` pre-empts `hand2`); both-qualify ties use `highCard`. -/
def straightFlush (hand1 hand2 : Hand) (reason : String) :
    Except PyError (Option Result) :=
  match hand1.straight with
  | .error e => .error e
  | .ok s1 =>
  match hand2.straight with
  | .error e => .error e
  | .ok s2 =>
  match neitherOrOnlyOne (s1.isSome && hand1.isFlush) (s2.isSome && hand2.isFlush)
      hand1 hand2 reason with
  | none => .ok none
  | some result =>
    if result.isDraw then .ok (some (highCard hand1 hand2 reason))
    else .ok (some result)

/-- The nine poker categories, in rank's descending precedence order. -/
inductive Category where
  | straightFlush | fourOfAKind | fullHouse | flush | straight
  | threeOfAKind | twoPairs | twoOfAKind | highCard
deriving DecidableEq

/-- Position of a category in the precedence order (0 = highest). -/
def catIdx : Category → Nat
  | .straightFlush => 0
  | .fourOfAKind => 1
  | .fullHouse => 2
  | .flush => 3
  | .straight => 4
  | .threeOfAKind => 5
  | .twoPairs => 6
  | .twoOfAKind => 7
  | .highCard => 8

/-- The bare reason string of each category (the Python default argument). -/
def catReason : Category → String
  | .straightFlush => "Straight Flush"
  | .fourOfAKind => "Four of a Kind"
  | .fullHouse => "Full House"
  | .flush => "Flush"
  | .straight => "Straight"
  | .threeOfAKind => "Three of a Kind"
  | .twoPairs => "Two Pairs"
  | .twoOfAKind => "Two of a Kind"
  | .highCard => "High Card"

/-- The ranking function of each category, with its default reason supplied
(as happens when `rank` calls it with two positional arguments).  `highCard`
returns a `Result` object, which is always truthy to `rank`'s loop, hence
always `some`. -/
def categoryRanker : Category → Hand → Hand → Except PyError (Option Result)
  | .straightFlush => fun h1 h2 => straightFlush h1 h2 "Straight Flush"
  | .fourOfAKind => fun h1 h2 => fourOfAKind h1 h2 "Four of a Kind"
  | .fullHouse => fun h1 h2 => fullHouse h1 h2 "Full House"
  | .flush => fun h1 h2 => flush h1 h2 "Flush"
  | .straight => fun h1 h2 => straight h1 h2 "Straight"
  | .threeOfAKind => fun h1 h2 => threeOfAKind h1 h2 "Three of a Kind"
  | .twoPairs => fun h1 h2 => twoPairs h1 h2 "Two Pairs"
  | .twoOfAKind => fun h1 h2 => twoOfAKind h1 h2 "Two of a Kind"
  | .highCard => fun h1 h2 => .ok (some (highCard h1 h2 "High Card"))

/-- The precedence list of `rank`'s `for` loop. -/
def categoryOrder : List Category :=
  [.straightFlush, .fourOfAKind, .fullHouse, .flush, .straight,
   .threeOfAKind, .twoPairs, .twoOfAKind, .highCard]

/-- `rank`'s loop body: try each category in turn, returning the first truthy
result; an uncaught exception aborts the loop. -/
def tryCategories (hand1 hand2 : Hand) : List Category → Except PyError (Option Result)
  | [] => .ok none
  | c :: cs =>
    match categoryRanker c hand1 hand2 with
    | .error e => .error e
    | .ok (some result) => .ok (some result)
    | .ok none => tryCategories hand1 hand2 cs

/-- `rank`: the orchestrator over the fixed category precedence list. -/
def rank (hand1 hand2 : Hand) : Except PyError (Option Result) :=
  tryCategories hand1 hand2 categoryOrder

instance {ε α : Type} [DecidableEq ε] [DecidableEq α] : DecidableEq (Except ε α) := fun a b =>
  match a, b with
  | .error e, .error f =>
    if h : e = f then isTrue (by rw [h]) else isFalse (fun hc => by cases hc; exact h rfl)
  | .ok x, .ok y =>
    if h : x = y then isTrue (by rw [h]) else isFalse (fun hc => by cases hc; exact h rfl)
  | .error _, .ok _ => isFalse (fun hc => by cases hc)
  | .ok _, .error _ => isFalse (fun hc => by cases hc)

/-- `Face(rep)` for a one-character symbol: its index in `Face.faces`
(`None` models the `ValueError` for an unrecognized symbol). -/
def parseFace (c : Char) : Option Face :=
  match faces.indexOf? (String.mk [c]) with
  | some i => if h : i < 13 then some ⟨i, h⟩ else none
  | none => none

/-- `Suit(rep)` for a one-character symbol. -/
def parseSuit (c : Char) : Option Suit :=
  match c with
  | 'C' => some .clubs
  | 'D' => some .diamonds
  | 'H' => some .hearts
  | 'S' => some .spades
  | _ => none

/-- `Card.fromRep`: `Card(Face(rep[0]), Suit(rep[1]))` for the two-character
notation used throughout the source. -/
def Card.fromRep (rep : String) : Option Card :=
  match rep.toList with
  | f :: s :: _ =>
    match parseFace f, parseSuit s with
    | some face, some suit => some ⟨face, suit⟩
    | _, _ => none
  | _ => none

/-- The `set(...)` of card-rep strings in `Hand.fromRep`: string hashing and
equality agree, so the set keeps the first occurrence of each distinct string. -/
def pyStringSet (reps : List String) : List String :=
  reps.foldl (fun acc r => if acc.contains r then acc else acc ++ [r]) []

/-- `Hand.fromRep` after the regex split: the colour plus the card reps of the
notation (already split on spaces).  The reps pass through a string `set`,
are parsed, and the parsed cards pass through the card `set`. -/
def Hand.fromRepList (colour : String) (reps : List String) : Option Hand :=
  ((pyStringSet reps).mapM Card.fromRep).map
    (fun cardList => ⟨colour, pySetOfCards cardList⟩)

/-! ### Basic facts about `descending` -/

theorem perm_insertDesc (c : Card) (l : List Card) : (insertDesc c l).Perm (c :: l) := by
  induction l with
  | nil => simp [insertDesc]
  | cons d ds ih =>
    simp only [insertDesc]
    split
    · exact List.Perm.refl _
    · exact (ih.cons d).trans (List.Perm.swap c d ds)

theorem descending_perm_aux : ∀ l : List Card, (l.foldr insertDesc []).Perm l := by
  intro l
  induction l with
  | nil => simp
  | cons c cs ih => exact (perm_insertDesc c (cs.foldr insertDesc [])).trans (ih.cons c)

theorem descending_perm (h : Hand) : h.descending.Perm h.cards :=
  descending_perm_aux h.cards

theorem length_descending (h : Hand) : h.descending.length = h.cards.length :=
  (descending_perm h).length_eq

theorem faceCount_eq_countP (h : Hand) (f : Face) :
    h.faceCount f = h.cards.countP (fun c => c.face == f) :=
  (List.countP_eq_length_filter _ _).symm

theorem faceCount_eq_countP_descending (h : Hand) (f : Face) :
    h.faceCount f = h.descending.countP (fun c => c.face == f) := by
  rw [faceCount_eq_countP, ((descending_perm h).countP_eq _)]

theorem length_eq_five {α : Type} {l : List α} (hl : l.length = 5) :
    ∃ a b c d e, l = [a, b, c, d, e] := by
  rcases l with _ | ⟨a, _ | ⟨b, _ | ⟨c, _ | ⟨d, _ | ⟨e, _ | ⟨f, t⟩⟩⟩⟩⟩⟩ <;>
    simp only [List.length] at hl <;> try omega
  exact ⟨a, b, c, d, e, rfl⟩

/-! ### Characterizing `straight` -/

/-- With an explicitly listed 5-card `descending`, `straight` reduces to the
consecutive-run test on the face values and never raises. -/
theorem straight_of_descending (h : Hand) (a b c d e : Card)
    (hd : h.descending = [a, b, c, d, e]) :
    h.straight =
      if ((a.face.val : Int) - 1 = (b.face.val : Int) ∧
          (b.face.val : Int) - 1 = (c.face.val : Int) ∧
          (c.face.val : Int) - 1 = (d.face.val : Int) ∧
          (d.face.val : Int) - 1 = (e.face.val : Int)) then
        Except.ok (some a.face)
      else Except.ok none := by
  unfold Hand.straight Hand.descendingFaceValues
  rw [hd]
  simp only [List.map_cons, List.map_nil, listIdx, List.get?]
  split_ifs with h1 h2 h3 h4 h5 <;> simp_all

theorem straight_ok_of_length (h : Hand) (h5 : h.cards.length = 5) :
    ∃ o, h.straight = .ok o := by
  have hlen : h.descending.length = 5 := by rw [length_descending, h5]
  obtain ⟨a, b, c, d, e, hd⟩ := length_eq_five hlen
  rw [straight_of_descending h a b c d e hd]
  split_ifs <;> exact ⟨_, rfl⟩

/-- When `straight` detects a run, the descending cards are that run:
the top card carries the returned face and each value steps down by one. -/
theorem straight_run (h : Hand) (t : Face) (h5 : h.cards.length = 5)
    (hs : h.straight = .ok (some t)) :
    ∃ a b c d e, h.descending = [a, b, c, d, e] ∧ a.face = t ∧
      (a.face.val : Int) - 1 = (b.face.val : Int) ∧
      (b.face.val : Int) - 1 = (c.face.val : Int) ∧
      (c.face.val : Int) - 1 = (d.face.val : Int) ∧
      (d.face.val : Int) - 1 = (e.face.val : Int) := by
  have hlen : h.descending.length = 5 := by rw [length_descending, h5]
  obtain ⟨a, b, c, d, e, hd⟩ := length_eq_five hlen
  rw [straight_of_descending h a b c d e hd] at hs
  split_ifs at hs with hrun
  · have hat : a.face = t := by simpa using hs
    exact ⟨a, b, c, d, e, hd, hat, hrun.1, hrun.2.1, hrun.2.2.1, hrun.2.2.2⟩
  · exact absurd hs (by simp)

/-- A hand with a repeated face (count ≥ 2) is not a straight. -/
theorem straight_none_of_count (h : Hand) (h5 : h.cards.length = 5)
    (f : Face) (hf : 2 ≤ h.faceCount f) : h.straight = .ok none := by
  obtain ⟨o, ho⟩ := straight_ok_of_length h h5
  cases o with
  | none => exact ho
  | some t =>
    exfalso
    obtain ⟨a, b, c, d, e, hd, _, k1, k2, k3, k4⟩ := straight_run h t h5 ho
    have hnodup : ([a.face, b.face, c.face, d.face, e.face] : List Face).Nodup := by
      simp only [List.nodup_cons, List.mem_cons, List.mem_singleton, List.not_mem_nil,
        List.nodup_nil, not_false_eq_true, and_true, not_or, List.mem_nil_iff]
      refine ⟨⟨?_, ?_, ?_, ?_⟩, ⟨?_, ?_, ?_⟩, ⟨?_, ?_⟩, ?_⟩ <;>
        · intro hEq
          have := congrArg Fin.val hEq
          omega
    have hle := List.nodup_iff_count_le_one.mp hnodup f
    have hcnt : h.faceCount f = ([a.face, b.face, c.face, d.face, e.face] : List Face).count f := by
      rw [faceCount_eq_countP_descending, hd, List.count]
      simp [List.countP_cons, List.countP_nil]
    omega

/-! ### Facts about `compareFaces` and `deepComparison` -/

theorem compareFaces_self (f : Face) (hand1 hand2 : Hand) (r : String) :
    compareFaces f f hand1 hand2 r = .draw := by
  simp [compareFaces]

theorem compareFaces_gt {face1 face2 : Face} (hand1 hand2 : Hand) (r : String)
    (hlt : face2 < face1) :
    compareFaces face1 face2 hand1 hand2 r =
      .win hand1.colour (r ++ ": " ++ faceRep face1 ++ " over " ++ faceRep face2) := by
  simp [compareFaces, hlt]

theorem compareFaces_lt {face1 face2 : Face} (hand1 hand2 : Hand) (r : String)
    (hlt : face1 < face2) :
    compareFaces face1 face2 hand1 hand2 r =
      .win hand2.colour (r ++ ": " ++ faceRep face2 ++ " over " ++ faceRep face1) := by
  simp [compareFaces, hlt, not_lt_of_gt hlt]

theorem compareFaces_isDraw_iff {face1 face2 : Face} {hand1 hand2 : Hand} {r : String} :
    (compareFaces face1 face2 hand1 hand2 r).isDraw = true ↔ face1 = face2 := by
  unfold compareFaces
  split_ifs with h1 h2
  · simp [Result.isDraw]
    intro hEq
    exact absurd (hEq ▸ h1) (lt_irrefl _)
  · simp [Result.isDraw]
    intro hEq
    exact absurd (hEq ▸ h2) (lt_irrefl _)
  · simp [Result.isDraw, le_antisymm (not_lt.mp h2) (not_lt.mp h1)]

theorem compareFaces_symm (face1 face2 : Face) (hand1 hand2 : Hand) (r : String) :
    compareFaces face2 face1 hand2 hand1 r = compareFaces face1 face2 hand1 hand2 r := by
  rcases lt_trichotomy face1 face2 with hlt | hEq | hlt
  · rw [compareFaces_gt hand2 hand1 r hlt, compareFaces_lt hand1 hand2 r hlt]
  · rw [hEq, compareFaces_self, compareFaces_self]
  · rw [compareFaces_lt hand2 hand1 r hlt, compareFaces_gt hand1 hand2 r hlt]

theorem deepComparison_draw (hand1 hand2 : Hand) (r : String) :
    ∀ l : List (Card × Card), (∀ p ∈ l, p.1.face = p.2.face) →
      deepComparison hand1 hand2 r l = .draw := by
  intro l
  induction l with
  | nil => intro; rfl
  | cons p rest ih =>
    intro hall
    obtain ⟨c1, c2⟩ := p
    have hface : c1.face = c2.face := hall (c1, c2) (List.mem_cons_self _ _)
    simp only [deepComparison, hface, compareFaces_self, Result.isDraw]
    exact ih (fun q hq => hall q (List.mem_cons_of_mem _ hq))

theorem zip_faces_eq : ∀ (l1 l2 : List Card),
    l1.map Card.face = l2.map Card.face →
    ∀ p ∈ l1.zip l2, p.1.face = p.2.face := by
  intro l1
  induction l1 with
  | nil => simp
  | cons a as ih =>
    intro l2 hmap p hp
    cases l2 with
    | nil => simp at hp
    | cons b bs =>
      simp only [List.map_cons, List.cons.injEq] at hmap
      simp only [List.zip_cons_cons, List.mem_cons] at hp
      rcases hp with rfl | hp
      · exact hmap.1
      · exact ih bs hmap.2 p hp

theorem deepComparison_symm (hand1 hand2 : Hand) (r : String) :
    ∀ l : List (Card × Card),
      deepComparison hand2 hand1 r (l.map Prod.swap) = deepComparison hand1 hand2 r l := by
  intro l
  induction l with
  | nil => rfl
  | cons p rest ih =>
    obtain ⟨c1, c2⟩ := p
    simp only [List.map_cons, Prod.swap_prod_mk, deepComparison,
      compareFaces_symm c1.face c2.face hand1 hand2 r, ih]

theorem highCard_symm (hand1 hand2 : Hand) (r : String) :
    highCard hand2 hand1 r = highCard hand1 hand2 r := by
  unfold highCard
  rw [← List.zip_swap hand1.descending hand2.descending, deepComparison_symm]

/-! ### Facts about `facesOccuringTimes` -/

theorem mem_facesOccuringTimes (h : Hand) (n : Nat) (f : Face) :
    f ∈ h.facesOccuringTimes n ↔ h.faceCount f = n := by
  simp [Hand.facesOccuringTimes, faceRange, List.mem_reverse, List.mem_filter,
    List.mem_finRange]

theorem facesOccuringTimes_sorted (h : Hand) (n : Nat) :
    (h.facesOccuringTimes n).Pairwise (fun a b => b < a) := by
  unfold Hand.facesOccuringTimes
  rw [List.pairwise_reverse]
  exact (List.pairwise_lt_finRange 13).filter _

theorem facesOccuringTimes_eq_nil_iff (h : Hand) (n : Nat) :
    h.facesOccuringTimes n = [] ↔ ∀ f, h.faceCount f ≠ n := by
  rw [List.eq_nil_iff_forall_not_mem]
  exact forall_congr' (fun f => by rw [mem_facesOccuringTimes])

theorem facesOccuringTimes_head (h : Hand) (n : Nat) (f : Face) (rest : List Face)
    (he : h.facesOccuringTimes n = f :: rest) :
    h.faceCount f = n ∧ ∀ g, h.faceCount g = n → g ≤ f := by
  have hmemf : h.faceCount f = n :=
    (mem_facesOccuringTimes h n f).mp (he ▸ List.mem_cons_self f rest)
  refine ⟨hmemf, fun g hg => ?_⟩
  have hmem : g ∈ f :: rest := he ▸ (mem_facesOccuringTimes h n g).mpr hg
  have hsort := he ▸ facesOccuringTimes_sorted h n
  rcases List.mem_cons.mp hmem with rfl | hmem
  · exact le_refl _
  · exact le_of_lt ((List.pairwise_cons.mp hsort).1 g hmem)

/-! ### Count helpers -/

theorem countP_add_le_length {α : Type} (p q : α → Bool) (l : List α)
    (hpq : ∀ x ∈ l, ¬(p x = true ∧ q x = true)) :
    l.countP p + l.countP q ≤ l.length := by
  induction l with
  | nil => simp
  | cons a as ih =>
    have ha := hpq a (List.mem_cons_self a as)
    have hrest := fun x hx => hpq x (List.mem_cons_of_mem a hx)
    simp only [List.countP_cons, List.length_cons]
    have := ih hrest
    cases hp : p a <;> cases hq : q a <;> simp_all <;> omega

/-- On a duplicate-free 5-card hand, any repeated face rules out a flush. -/
theorem not_flush_of_repeated_face (h : Hand) (h5 : h.cards.length = 5)
    (hnd : h.cards.Nodup) (f : Face) (hf : 2 ≤ h.faceCount f) :
    h.isFlush = false := by
  by_contra hne
  have hfl : h.isFlush = true := by
    cases hq : h.isFlush
    · exact absurd hq hne
    · rfl
  obtain ⟨s, hs⟩ : ∃ s, h.suitCount s = 5 := by
    unfold Hand.isFlush at hfl
    rcases hq : h.suitsOccuringTimes 5 with _ | ⟨s, rest⟩
    · rw [hq] at hfl; simp at hfl
    · have : s ∈ h.suitsOccuringTimes 5 := hq ▸ List.mem_cons_self s rest
      unfold Hand.suitsOccuringTimes at this
      exact ⟨s, by simpa using (List.mem_filter.mp this).2⟩
  have hall : ∀ c ∈ h.cards, c.suit = s := by
    have hsub := List.filter_sublist (p := fun c => c.suit == s) h.cards
    have hlen : (h.cards.filter (fun c => c.suit == s)).length = h.cards.length := by
      unfold Hand.suitCount at hs
      rw [hs, h5]
    have := List.filter_eq_self.mp (hsub.eq_of_length hlen)
    exact fun c hc => by simpa using this c hc
  have hmono : h.cards.countP (fun c => c.face == f) ≤
      h.cards.countP (fun c => c == Card.mk f s) := by
    refine List.countP_mono_left (fun c hc hcf => ?_)
    have h1 : c.face = f := by simpa using hcf
    have h2 : c.suit = s := hall c hc
    have : c = Card.mk f s := by
      cases c
      simp_all
    simp [this]
  have hcount : h.cards.count (Card.mk f s) ≤ 1 :=
    List.nodup_iff_count_le_one.mp hnd _
  rw [List.count] at hcount
  rw [faceCount_eq_countP] at hf
  omega

/-! ### Category qualification -/

/-- A valid hand in the sense of the spec's construction boundary: exactly
five distinct cards. -/
def validHand (h : Hand) : Prop := h.cards.length = 5 ∧ h.cards.Nodup

instance validHandDecidable (h : Hand) : Decidable (validHand h) := by
  unfold validHand
  infer_instance

/-- Truthiness of `straight()`'s value (when it does not raise). -/
def straightQ (h : Hand) : Bool :=
  match h.straight with
  | .ok (some _) => true
  | _ => false

theorem straightQ_eq (h : Hand) (o : Option Face) (ho : h.straight = .ok o) :
    straightQ h = o.isSome := by
  unfold straightQ
  rw [ho]
  cases o <;> rfl

/-- Whether a hand qualifies for a category: the truthiness of the detection
used by the category's ranker gate.  Every hand qualifies for High Card. -/
def qualifies (h : Hand) : Category → Bool
  | .straightFlush => straightQ h && h.isFlush
  | .fourOfAKind => h.quartet.1.isSome
  | .fullHouse => h.fullHouse.isSome
  | .flush => h.isFlush
  | .straight => straightQ h
  | .threeOfAKind => h.triplet.1.isSome
  | .twoPairs => h.pairs.1.isSome && h.pairs.2.1.isSome
  | .twoOfAKind => h.pair.1.isSome
  | .highCard => true

/-! ### Per-ranker gate behaviour: neither hand qualifies, or only the first -/

theorem twoOfAKind_neither (A B : Hand) (r : String)
    (hqA : A.pair.1.isSome = false) (hqB : B.pair.1.isSome = false) :
    twoOfAKind A B r = .ok none := by
  unfold twoOfAKind
  simp [hqA, hqB, neitherOrOnlyOne]

theorem twoOfAKind_oneA (A B : Hand) (r : String)
    (hqA : A.pair.1.isSome = true) (hqB : B.pair.1.isSome = false) :
    twoOfAKind A B r = .ok (some (.win A.colour r)) := by
  unfold twoOfAKind
  simp [hqA, hqB, neitherOrOnlyOne, Result.isDraw]

theorem twoPairs_neither (A B : Hand) (r : String)
    (hqA : (A.pairs.1.isSome && A.pairs.2.1.isSome) = false)
    (hqB : (B.pairs.1.isSome && B.pairs.2.1.isSome) = false) :
    twoPairs A B r = .ok none := by
  unfold twoPairs
  simp [hqA, hqB, neitherOrOnlyOne]

theorem twoPairs_oneA (A B : Hand) (r : String)
    (hqA : (A.pairs.1.isSome && A.pairs.2.1.isSome) = true)
    (hqB : (B.pairs.1.isSome && B.pairs.2.1.isSome) = false) :
    twoPairs A B r = .ok (some (.win A.colour r)) := by
  unfold twoPairs
  simp [hqA, hqB, neitherOrOnlyOne, Result.isDraw]

theorem threeOfAKind_neither (A B : Hand) (r : String)
    (hqA : A.triplet.1.isSome = false) (hqB : B.triplet.1.isSome = false) :
    threeOfAKind A B r = .ok none := by
  unfold threeOfAKind
  simp [hqA, hqB, neitherOrOnlyOne]

theorem threeOfAKind_oneA (A B : Hand) (r : String)
    (hqA : A.triplet.1.isSome = true) (hqB : B.triplet.1.isSome = false) :
    threeOfAKind A B r = .ok (some (.win A.colour r)) := by
  unfold threeOfAKind
  simp [hqA, hqB, neitherOrOnlyOne, Result.isDraw]

theorem straight_neither (A B : Hand) (r : String) (oa ob : Option Face)
    (ha : A.straight = .ok oa) (hb : B.straight = .ok ob)
    (hqA : oa.isSome = false) (hqB : ob.isSome = false) :
    straight A B r = .ok none := by
  unfold straight
  rw [ha, hb]
  simp [hqA, hqB, neitherOrOnlyOne]

theorem straight_oneA (A B : Hand) (r : String) (oa ob : Option Face)
    (ha : A.straight = .ok oa) (hb : B.straight = .ok ob)
    (hqA : oa.isSome = true) (hqB : ob.isSome = false) :
    straight A B r = .ok (some (.win A.colour r)) := by
  unfold straight
  rw [ha, hb]
  simp [hqA, hqB, neitherOrOnlyOne, Result.isDraw]

theorem flush_neither (A B : Hand) (r : String)
    (hqA : A.isFlush = false) (hqB : B.isFlush = false) :
    flush A B r = .ok none := by
  unfold flush
  simp [hqA, hqB, neitherOrOnlyOne]

theorem flush_oneA (A B : Hand) (r : String)
    (hqA : A.isFlush = true) (hqB : B.isFlush = false) :
    flush A B r = .ok (some (.win A.colour r)) := by
  unfold flush
  simp [hqA, hqB, neitherOrOnlyOne, Result.isDraw]

theorem fullHouse_neither (A B : Hand) (r : String)
    (hqA : A.fullHouse.isSome = false) (hqB : B.fullHouse.isSome = false) :
    fullHouse A B r = .ok none := by
  unfold fullHouse
  simp [hqA, hqB, neitherOrOnlyOne]

theorem fullHouse_oneA (A B : Hand) (r : String)
    (hqA : A.fullHouse.isSome = true) (hqB : B.fullHouse.isSome = false) :
    fullHouse A B r = .ok (some (.win A.colour r)) := by
  unfold fullHouse
  simp [hqA, hqB, neitherOrOnlyOne, Result.isDraw]

theorem fourOfAKind_neither (A B : Hand) (r : String)
    (hqA : A.quartet.1.isSome = false) (hqB : B.quartet.1.isSome = false) :
    fourOfAKind A B r = .ok none := by
  unfold fourOfAKind
  simp [hqA, hqB, neitherOrOnlyOne]

theorem fourOfAKind_oneA (A B : Hand) (r : String)
    (hqA : A.quartet.1.isSome = true) (hqB : B.quartet.1.isSome = false) :
    fourOfAKind A B r = .ok (some (.win A.colour r)) := by
  unfold fourOfAKind
  simp [hqA, hqB, neitherOrOnlyOne, Result.isDraw]

theorem straightFlush_neither (A B : Hand) (r : String) (oa ob : Option Face)
    (ha : A.straight = .ok oa) (hb : B.straight = .ok ob)
    (hqA : (oa.isSome && A.isFlush) = false) (hqB : (ob.isSome && B.isFlush) = false) :
    straightFlush A B r = .ok none := by
  unfold straightFlush
  rw [ha, hb]
  simp [hqA, hqB, neitherOrOnlyOne]

theorem straightFlush_oneA (A B : Hand) (r : String) (oa ob : Option Face)
    (ha : A.straight = .ok oa) (hb : B.straight = .ok ob)
    (hqA : (oa.isSome && A.isFlush) = true) (hqB : (ob.isSome && B.isFlush) = false) :
    straightFlush A B r = .ok (some (.win A.colour r)) := by
  unfold straightFlush
  rw [ha, hb]
  simp [hqA, hqB, neitherOrOnlyOne, Result.isDraw]

/-- A category whose gate rejects both hands passes (`None` to `rank`'s loop). -/
theorem ranker_neither (c : Category) (A B : Hand) (hA : validHand A) (hB : validHand B)
    (hqA : qualifies A c = false) (hqB : qualifies B c = false) :
    categoryRanker c A B = .ok none := by
  obtain ⟨oa, ha⟩ := straight_ok_of_length A hA.1
  obtain ⟨ob, hb⟩ := straight_ok_of_length B hB.1
  cases c <;> simp only [qualifies] at hqA hqB <;> simp only [categoryRanker]
  case straightFlush =>
    rw [straightQ_eq A oa ha] at hqA
    rw [straightQ_eq B ob hb] at hqB
    exact straightFlush_neither A B _ oa ob ha hb hqA hqB
  case fourOfAKind => exact fourOfAKind_neither A B _ hqA hqB
  case fullHouse => exact fullHouse_neither A B _ hqA hqB
  case flush => exact flush_neither A B _ hqA hqB
  case straight =>
    rw [straightQ_eq A oa ha] at hqA
    rw [straightQ_eq B ob hb] at hqB
    exact straight_neither A B _ oa ob ha hb hqA hqB
  case threeOfAKind => exact threeOfAKind_neither A B _ hqA hqB
  case twoPairs => exact twoPairs_neither A B _ hqA hqB
  case twoOfAKind => exact twoOfAKind_neither A B _ hqA hqB
  case highCard => simp at hqA

/-- A category whose gate accepts only the first hand produces an outright win
for it, carrying the bare category reason. -/
theorem ranker_oneA (c : Category) (A B : Hand) (hA : validHand A) (hB : validHand B)
    (hqA : qualifies A c = true) (hqB : qualifies B c = false) :
    categoryRanker c A B = .ok (some (.win A.colour (catReason c))) := by
  obtain ⟨oa, ha⟩ := straight_ok_of_length A hA.1
  obtain ⟨ob, hb⟩ := straight_ok_of_length B hB.1
  cases c <;> simp only [qualifies] at hqA hqB <;>
    simp only [categoryRanker, catReason]
  case straightFlush =>
    rw [straightQ_eq A oa ha] at hqA
    rw [straightQ_eq B ob hb] at hqB
    exact straightFlush_oneA A B _ oa ob ha hb hqA hqB
  case fourOfAKind => exact fourOfAKind_oneA A B _ hqA hqB
  case fullHouse => exact fullHouse_oneA A B _ hqA hqB
  case flush => exact flush_oneA A B _ hqA hqB
  case straight =>
    rw [straightQ_eq A oa ha] at hqA
    rw [straightQ_eq B ob hb] at hqB
    exact straight_oneA A B _ oa ob ha hb hqA hqB
  case threeOfAKind => exact threeOfAKind_oneA A B _ hqA hqB
  case twoPairs => exact twoPairs_oneA A B _ hqA hqB
  case twoOfAKind => exact twoOfAKind_oneA A B _ hqA hqB
  case highCard => simp at hqB

/-! ### Scanning the precedence list -/

/-- The first category of a precedence list a hand qualifies for (falling back
to High Card, for which every hand qualifies). -/
def firstQualifying (h : Hand) : List Category → Category
  | [] => .highCard
  | c :: cs => if qualifies h c then c else firstQualifying h cs

/-- The best (highest-precedence) category a hand qualifies for. -/
def bestCategory (h : Hand) : Category := firstQualifying h categoryOrder

theorem categoryOrder_sorted :
    categoryOrder.Pairwise (fun a b => catIdx a < catIdx b) := by decide

theorem mem_categoryOrder (c : Category) : c ∈ categoryOrder := by
  cases c <;> decide

theorem catIdx_injective {c d : Category} (h : catIdx c = catIdx d) : c = d := by
  cases c <;> cases d <;> first | rfl | exact absurd h (by decide)

theorem firstQualifying_min (h : Hand) :
    ∀ cs : List Category, cs.Pairwise (fun a b => catIdx a < catIdx b) →
      ∀ d ∈ cs, qualifies h d = true →
        firstQualifying h cs ∈ cs ∧ qualifies h (firstQualifying h cs) = true ∧
        catIdx (firstQualifying h cs) ≤ catIdx d := by
  intro cs
  induction cs with
  | nil => intro _ d hd; simp at hd
  | cons c rest ih =>
    intro hpw d hd hq
    by_cases hc : qualifies h c = true
    · refine ⟨by simp [firstQualifying, hc], by simp [firstQualifying, hc, hc], ?_⟩
      simp only [firstQualifying, hc, if_true]
      rcases List.mem_cons.mp hd with rfl | hd
      · exact le_refl _
      · exact le_of_lt ((List.pairwise_cons.mp hpw).1 d hd)
    · have hcf : qualifies h c = false := by
        cases hqc : qualifies h c
        · rfl
        · exact absurd hqc hc
      rcases List.mem_cons.mp hd with rfl | hd
      · exact absurd hq hc
      · obtain ⟨h1, h2, h3⟩ := ih (List.pairwise_cons.mp hpw).2 d hd hq
        have hfq : firstQualifying h (c :: rest) = firstQualifying h rest := by
          simp [firstQualifying, hcf]
        rw [hfq]
        exact ⟨List.mem_cons_of_mem c h1, h2, h3⟩

theorem firstQualifying_before (h : Hand) :
    ∀ cs : List Category, cs.Pairwise (fun a b => catIdx a < catIdx b) →
      ∀ d ∈ cs, catIdx d < catIdx (firstQualifying h cs) → qualifies h d = false := by
  intro cs
  induction cs with
  | nil => intro _ d hd; simp at hd
  | cons c rest ih =>
    intro hpw d hd hlt
    by_cases hc : qualifies h c = true
    · simp only [firstQualifying, hc, if_true] at hlt
      rcases List.mem_cons.mp hd with rfl | hd
      · exact absurd hlt (lt_irrefl _)
      · exact absurd hlt (not_lt_of_gt ((List.pairwise_cons.mp hpw).1 d hd))
    · have hcf : qualifies h c = false := by
        cases hqc : qualifies h c
        · rfl
        · exact absurd hqc hc
      simp only [firstQualifying, hcf, Bool.false_eq_true, if_false] at hlt
      rcases List.mem_cons.mp hd with rfl | hd
      · exact hcf
      · exact ih (List.pairwise_cons.mp hpw).2 d hd hlt

/-- Scanning a sorted category list: if the first category either hand
qualifies for is `c0`, and only the first hand qualifies there, the scan
returns an outright win for the first hand with `c0`'s bare reason. -/
theorem tryCategories_win (A B : Hand) (hA : validHand A) (hB : validHand B) :
    ∀ (cs : List Category) (c0 : Category),
      cs.Pairwise (fun a b => catIdx a < catIdx b) →
      c0 ∈ cs → qualifies A c0 = true →
      (∀ d ∈ cs, catIdx d ≤ catIdx c0 → qualifies B d = false) →
      (∀ d ∈ cs, catIdx d < catIdx c0 → qualifies A d = false) →
      tryCategories A B cs = .ok (some (.win A.colour (catReason c0))) := by
  intro cs
  induction cs with
  | nil => intro c0 _ hmem; simp at hmem
  | cons c rest ih =>
    intro c0 hpw hmem hq hBno hAno
    rcases List.mem_cons.mp hmem with rfl | hmem
    · have hqB : qualifies B c0 = false :=
        hBno c0 (List.mem_cons_self _ _) (le_refl _)
      have hstep := ranker_oneA c0 A B hA hB hq hqB
      simp [tryCategories, hstep]
    · have hlt : catIdx c < catIdx c0 := (List.pairwise_cons.mp hpw).1 c0 hmem
      have hqA' : qualifies A c = false :=
        hAno c (List.mem_cons_self _ _) hlt
      have hqB' : qualifies B c = false :=
        hBno c (List.mem_cons_self _ _) (le_of_lt hlt)
      have hstep := ranker_neither c A B hA hB hqA' hqB'
      simp only [tryCategories, hstep]
      exact ih c0 (List.pairwise_cons.mp hpw).2 hmem hq
        (fun d hd => hBno d (List.mem_cons_of_mem c hd))
        (fun d hd => hAno d (List.mem_cons_of_mem c hd))

/-- **C1.** For every pair of valid 5-card Hands, if hand A qualifies for a
strictly higher-precedence category (in the order Straight Flush, Four of a
Kind, Full House, Flush, Straight, Three of a Kind, Two Pairs, Two of a Kind,
High Card) than the best category hand B qualifies for, then `rank A B` is a
Win naming A's owner, regardless of the card values involved. -/
theorem C1_category_precedence (A B : Hand) (hA : validHand A) (hB : validHand B)
    (c : Category) (hq : qualifies A c = true)
    (hlt : catIdx c < catIdx (bestCategory B)) :
    ∃ reason, rank A B = .ok (some (Result.win A.colour reason)) := by
  unfold bestCategory at hlt
  obtain ⟨hmem0, hq0, hle0⟩ :=
    firstQualifying_min A categoryOrder categoryOrder_sorted c (mem_categoryOrder c) hq
  refine ⟨catReason (firstQualifying A categoryOrder), ?_⟩
  unfold rank
  apply tryCategories_win A B hA hB categoryOrder (firstQualifying A categoryOrder)
    categoryOrder_sorted hmem0 hq0
  · intro d hd hdle
    exact firstQualifying_before B categoryOrder categoryOrder_sorted d hd
      (lt_of_le_of_lt (le_trans hdle hle0) hlt)
  · intro d hd hdlt
    exact firstQualifying_before A categoryOrder categoryOrder_sorted d hd hdlt

/-- A straight flush for Black: 2H 3H 4H 5H 6H. -/
def wHandSF : Hand :=
  ⟨"Black", [⟨0, .hearts⟩, ⟨1, .hearts⟩, ⟨2, .hearts⟩, ⟨3, .hearts⟩, ⟨4, .hearts⟩]⟩

/-- A high-card-only hand for White: 2C 3D 5S 9C KD. -/
def wHandHC : Hand :=
  ⟨"White", [⟨0, .clubs⟩, ⟨1, .diamonds⟩, ⟨3, .spades⟩, ⟨7, .clubs⟩, ⟨11, .diamonds⟩]⟩

theorem C1_category_precedence_witness :
    validHand wHandSF ∧ validHand wHandHC ∧
      qualifies wHandSF .straightFlush = true ∧
      catIdx .straightFlush < catIdx (bestCategory wHandHC) ∧
      ∃ reason, rank wHandSF wHandHC = .ok (some (Result.win wHandSF.colour reason)) :=
  ⟨by decide, by decide, by decide, by decide,
    C1_category_precedence wHandSF wHandHC (by decide) (by decide) .straightFlush
      (by decide) (by decide)⟩

/-! ### Per-ranker behaviour when both hands qualify -/

theorem straight_both (A B : Hand) (r : String) (t1 t2 : Face)
    (ha : A.straight = .ok (some t1)) (hb : B.straight = .ok (some t2)) :
    straight A B r = .ok (some (compareFaces t1 t2 A B r)) := by
  unfold straight
  rw [ha, hb]
  simp [neitherOrOnlyOne, Result.isDraw]

theorem straightFlush_both (A B : Hand) (r : String) (t1 t2 : Face)
    (ha : A.straight = .ok (some t1)) (hb : B.straight = .ok (some t2))
    (hfA : A.isFlush = true) (hfB : B.isFlush = true) :
    straightFlush A B r = .ok (some (highCard A B r)) := by
  unfold straightFlush
  rw [ha, hb]
  simp [hfA, hfB, neitherOrOnlyOne, Result.isDraw]

theorem flush_both (A B : Hand) (r : String)
    (hfA : A.isFlush = true) (hfB : B.isFlush = true) :
    flush A B r = .ok (some (highCard A B r)) := by
  unfold flush
  simp [hfA, hfB, neitherOrOnlyOne, Result.isDraw]

/-- Both hands hold a triplet of the same face: `threeOfAKind` raises. -/
theorem threeOfAKind_both_eq (A B : Hand) (r : String) (f : Face)
    (ha : A.triplet.1 = some f) (hb : B.triplet.1 = some f) :
    threeOfAKind A B r = .error (.invalidCardDeck "Two triplets with same faces?") := by
  unfold threeOfAKind
  simp [ha, hb, neitherOrOnlyOne, Result.isDraw, compareFaces_self]

/-- Both hands hold a full house with the same triplet face: `fullHouse` raises. -/
theorem fullHouse_both_eq (A B : Hand) (r : String) (f : Face)
    (ha : A.fullHouse = some f) (hb : B.fullHouse = some f) :
    fullHouse A B r = .error (.invalidCardDeck "Two triplets with same faces?") := by
  unfold fullHouse
  simp [ha, hb, neitherOrOnlyOne, Result.isDraw, compareFaces_self]

/-- Both hands hold a quartet of the same face: `fourOfAKind` raises. -/
theorem fourOfAKind_both_eq (A B : Hand) (r : String) (f : Face)
    (ha : A.quartet.1 = some f) (hb : B.quartet.1 = some f) :
    fourOfAKind A B r = .error (.invalidCardDeck "Two quartets with same faces?") := by
  unfold fourOfAKind
  simp [ha, hb, neitherOrOnlyOne, Result.isDraw, compareFaces_self]

/-! ### No ranker crashes on valid hands -/

/-- `pairs()` yields either two faces or none at all. -/
theorem pairs_shape (h : Hand) :
    (∃ f1 f2, h.pairs.1 = some f1 ∧ h.pairs.2.1 = some f2) ∨
    (h.pairs.1 = none ∧ h.pairs.2.1 = none) := by
  unfold Hand.pairs
  rcases h.facesOccuringTimes 2 with _ | ⟨a, _ | ⟨b, t⟩⟩ <;> simp

theorem twoOfAKind_no_crash (A B : Hand) (r : String) :
    ∃ o, twoOfAKind A B r = .ok o := by
  unfold twoOfAKind
  rcases ha : A.pair.1 with _ | f1 <;> rcases hb : B.pair.1 with _ | f2 <;>
    simp [ha, hb, neitherOrOnlyOne, Result.isDraw] <;> split_ifs <;> simp

theorem twoPairs_no_crash (A B : Hand) (r : String) :
    ∃ o, twoPairs A B r = .ok o := by
  unfold twoPairs
  rcases pairs_shape A with ⟨f1, g1, ha1, ha2⟩ | ⟨ha1, ha2⟩ <;>
    rcases pairs_shape B with ⟨f2, g2, hb1, hb2⟩ | ⟨hb1, hb2⟩ <;>
    simp [ha1, ha2, hb1, hb2, neitherOrOnlyOne, Result.isDraw] <;>
    split_ifs <;> simp

theorem threeOfAKind_no_crash (A B : Hand) (r : String) :
    (∃ o, threeOfAKind A B r = .ok o) ∨
    ∃ m, threeOfAKind A B r = .error (.invalidCardDeck m) := by
  unfold threeOfAKind
  rcases ha : A.triplet.1 with _ | f1 <;> rcases hb : B.triplet.1 with _ | f2 <;>
    simp [ha, hb, neitherOrOnlyOne, Result.isDraw] <;> split_ifs <;> simp

theorem straight_no_crash (A B : Hand) (r : String) (oa ob : Option Face)
    (ha : A.straight = .ok oa) (hb : B.straight = .ok ob) :
    ∃ o, straight A B r = .ok o := by
  unfold straight
  rw [ha, hb]
  rcases oa with _ | t1 <;> rcases ob with _ | t2 <;>
    simp [neitherOrOnlyOne, Result.isDraw]

theorem flush_no_crash (A B : Hand) (r : String) :
    ∃ o, flush A B r = .ok o := by
  unfold flush
  cases ha : A.isFlush <;> cases hb : B.isFlush <;>
    simp [neitherOrOnlyOne, Result.isDraw]

theorem fullHouse_no_crash (A B : Hand) (r : String) :
    (∃ o, fullHouse A B r = .ok o) ∨
    ∃ m, fullHouse A B r = .error (.invalidCardDeck m) := by
  unfold fullHouse
  rcases ha : A.fullHouse with _ | f1 <;> rcases hb : B.fullHouse with _ | f2 <;>
    simp [ha, hb, neitherOrOnlyOne, Result.isDraw] <;> split_ifs <;> simp

theorem fourOfAKind_no_crash (A B : Hand) (r : String) :
    (∃ o, fourOfAKind A B r = .ok o) ∨
    ∃ m, fourOfAKind A B r = .error (.invalidCardDeck m) := by
  unfold fourOfAKind
  rcases ha : A.quartet.1 with _ | f1 <;> rcases hb : B.quartet.1 with _ | f2 <;>
    simp [ha, hb, neitherOrOnlyOne, Result.isDraw] <;> split_ifs <;> simp

theorem straightFlush_no_crash (A B : Hand) (r : String) (oa ob : Option Face)
    (ha : A.straight = .ok oa) (hb : B.straight = .ok ob) :
    ∃ o, straightFlush A B r = .ok o := by
  unfold straightFlush
  rw [ha, hb]
  cases hfa : (oa.isSome && A.isFlush) <;> cases hfb : (ob.isSome && B.isFlush) <;>
    simp [hfa, hfb, neitherOrOnlyOne, Result.isDraw]

/-- On valid hands, every category ranker returns normally or raises
`InvalidCardDeck` — never an `IndexError` or a `TypeError`. -/
theorem ranker_no_crash (c : Category) (A B : Hand)
    (hA : validHand A) (hB : validHand B) :
    (∃ o, categoryRanker c A B = .ok o) ∨
    ∃ m, categoryRanker c A B = .error (.invalidCardDeck m) := by
  obtain ⟨oa, ha⟩ := straight_ok_of_length A hA.1
  obtain ⟨ob, hb⟩ := straight_ok_of_length B hB.1
  cases c <;> simp only [categoryRanker]
  case straightFlush => exact Or.inl (straightFlush_no_crash A B _ oa ob ha hb)
  case fourOfAKind => exact fourOfAKind_no_crash A B _
  case fullHouse => exact fullHouse_no_crash A B _
  case flush => exact Or.inl (flush_no_crash A B _)
  case straight => exact Or.inl (straight_no_crash A B _ oa ob ha hb)
  case threeOfAKind => exact threeOfAKind_no_crash A B _
  case twoPairs => exact Or.inl (twoPairs_no_crash A B _)
  case twoOfAKind => exact Or.inl (twoOfAKind_no_crash A B _)
  case highCard => exact Or.inl ⟨some (highCard A B "High Card"), rfl⟩

theorem tryCategories_total (A B : Hand) (hA : validHand A) (hB : validHand B) :
    ∀ cs : List Category, Category.highCard ∈ cs →
      (∃ r, tryCategories A B cs = .ok (some r)) ∨
      ∃ m, tryCategories A B cs = .error (.invalidCardDeck m) := by
  intro cs
  induction cs with
  | nil => intro hmem; simp at hmem
  | cons c rest ih =>
    intro hmem
    rcases ranker_no_crash c A B hA hB with ⟨o, ho⟩ | ⟨m, hm⟩
    · cases o with
      | some res => exact Or.inl ⟨res, by simp [tryCategories, ho]⟩
      | none =>
        have hc : c ≠ Category.highCard := by
          intro hEq
          rw [hEq] at ho
          simp [categoryRanker] at ho
        have hmem' : Category.highCard ∈ rest := by
          rcases List.mem_cons.mp hmem with hEq | hmem'
          · exact absurd hEq.symm hc
          · exact hmem'
        simpa [tryCategories, ho] using ih hmem'
    · exact Or.inr ⟨m, by simp [tryCategories, hm]⟩

/-- **C4.** For every pair of valid 5-card Hands, `rank` terminates and
returns a Result (a Win or a Draw), never the `None` "not applicable" control
value: every earlier category either supplies a Result, raises
`InvalidCardDeck`, or passes to the next, and High Card — the last category
tried — returns a Win or Draw for every pair. -/
theorem C4_rank_total (A B : Hand) (hA : validHand A) (hB : validHand B) :
    (∃ r, rank A B = .ok (some r)) ∨
    ∃ m, rank A B = .error (.invalidCardDeck m) := by
  unfold rank
  exact tryCategories_total A B hA hB categoryOrder (by decide)

theorem C4_rank_total_witness :
    validHand wHandSF ∧ validHand wHandHC ∧
      ((∃ r, rank wHandSF wHandHC = .ok (some r)) ∨
       ∃ m, rank wHandSF wHandHC = .error (.invalidCardDeck m)) :=
  ⟨by decide, by decide, C4_rank_total wHandSF wHandHC (by decide) (by decide)⟩

/-- **C6.** For every two 5-card Hands whose descending face sequences are
identical (same 5 face values in the same order), `highCard` terminates and
returns a Draw: the recursion draws at each position and reaches the empty
sequence. -/
theorem C6_highCard_identical_draw (A B : Hand)
    (hA5 : A.cards.length = 5) (hB5 : B.cards.length = 5)
    (hfaces : A.descending.map Card.face = B.descending.map Card.face) :
    highCard A B "High Card" = .draw := by
  unfold highCard
  exact deepComparison_draw A B _ _ (zip_faces_eq _ _ hfaces)

/-- Same faces as `wHandHC` (2 3 5 9 K) in other suits, for Black. -/
def wHandHC2 : Hand :=
  ⟨"Black", [⟨0, .hearts⟩, ⟨1, .spades⟩, ⟨3, .clubs⟩, ⟨7, .hearts⟩, ⟨11, .spades⟩]⟩

theorem C6_highCard_identical_draw_witness :
    wHandHC2.cards.length = 5 ∧ wHandHC.cards.length = 5 ∧
      wHandHC2.descending.map Card.face = wHandHC.descending.map Card.face ∧
      highCard wHandHC2 wHandHC "High Card" = .draw :=
  ⟨by decide, by decide, by decide,
    C6_highCard_identical_draw wHandHC2 wHandHC (by decide) (by decide) (by decide)⟩

/-! ### Symmetry of the rankers -/

theorem neitherOrOnlyOne_symm (a1 a2 : Bool) (hand1 hand2 : Hand) (r : String) :
    neitherOrOnlyOne a2 a1 hand2 hand1 r = neitherOrOnlyOne a1 a2 hand1 hand2 r := by
  cases a1 <;> cases a2 <;> simp [neitherOrOnlyOne]

theorem listIdx_error_eq (l : List Int) (i : Nat) (e : PyError)
    (he : listIdx l i = .error e) : e = .indexError := by
  unfold listIdx at he
  cases hl : l.get? i <;> rw [hl] at he <;> simp_all

/-- `straight()` either returns or raises `IndexError`. -/
theorem straight_shape (h : Hand) :
    (∃ o, h.straight = .ok o) ∨ h.straight = .error .indexError := by
  unfold Hand.straight
  repeat' split
  all_goals try exact Or.inl ⟨_, rfl⟩
  all_goals try exact Or.inr rfl
  all_goals exact Or.inr (congrArg Except.error (listIdx_error_eq _ _ _ (by assumption)))

/-- The only exception `straight()` can raise is `IndexError`. -/
theorem straight_error (h : Hand) (e : PyError) (he : h.straight = .error e) :
    e = .indexError := by
  rcases straight_shape h with ⟨o, ho⟩ | hix
  · rw [ho] at he
    exact absurd he (by simp)
  · rw [hix] at he
    injection he with h'
    exact h'.symm

theorem twoOfAKind_symm (A B : Hand) (r : String) :
    twoOfAKind B A r = twoOfAKind A B r := by
  unfold twoOfAKind
  rw [neitherOrOnlyOne_symm]
  cases hg : neitherOrOnlyOne A.pair.1.isSome B.pair.1.isSome A B r with
  | none => simp
  | some result =>
    cases hd : result.isDraw
    · simp [hd]
    · simp only [hd, if_true]
      rcases ha : A.pair.1 with _ | f1 <;> rcases hb : B.pair.1 with _ | f2 <;>
        simp [compareFaces_symm, highCard_symm]

theorem twoPairs_symm (A B : Hand) (r : String) :
    twoPairs B A r = twoPairs A B r := by
  unfold twoPairs
  rw [neitherOrOnlyOne_symm]
  cases hg : neitherOrOnlyOne (A.pairs.1.isSome && A.pairs.2.1.isSome)
      (B.pairs.1.isSome && B.pairs.2.1.isSome) A B r with
  | none => simp
  | some result =>
    cases hd : result.isDraw
    · simp [hd]
    · simp only [hd, if_true]
      rcases ha : A.pairs.1 with _ | f1 <;> rcases hb : B.pairs.1 with _ | f2 <;>
        simp only [compareFaces_symm]
      cases hd2 : (compareFaces f1 f2 A B r).isDraw
      · simp [hd2]
      · simp only [hd2, if_true]
        rcases ha2 : A.pairs.2.1 with _ | g1 <;> rcases hb2 : B.pairs.2.1 with _ | g2 <;>
          simp [compareFaces_symm, highCard_symm]

theorem threeOfAKind_symm (A B : Hand) (r : String) :
    threeOfAKind B A r = threeOfAKind A B r := by
  unfold threeOfAKind
  rw [neitherOrOnlyOne_symm]
  cases hg : neitherOrOnlyOne A.triplet.1.isSome B.triplet.1.isSome A B r with
  | none => simp
  | some result =>
    cases hd : result.isDraw
    · simp [hd]
    · simp only [hd, if_true]
      rcases ha : A.triplet.1 with _ | f1 <;> rcases hb : B.triplet.1 with _ | f2 <;>
        simp [compareFaces_symm]

theorem straight_ranker_symm (A B : Hand) (r : String) :
    straight B A r = straight A B r := by
  unfold straight
  cases ha : A.straight with
  | error e =>
    cases hb : B.straight with
    | error e' =>
      rw [straight_error A e ha, straight_error B e' hb]
    | ok ob => rfl
  | ok oa =>
    cases hb : B.straight with
    | error e' => rfl
    | ok ob =>
      dsimp only
      rw [neitherOrOnlyOne_symm]
      cases hg : neitherOrOnlyOne oa.isSome ob.isSome A B r with
      | none => simp
      | some result =>
        cases hd : result.isDraw
        · simp [hd]
        · simp only [hd, if_true]
          rcases oa with _ | f1 <;> rcases ob with _ | f2 <;>
            simp [compareFaces_symm]

theorem flush_symm (A B : Hand) (r : String) :
    flush B A r = flush A B r := by
  unfold flush
  rw [neitherOrOnlyOne_symm]
  cases hg : neitherOrOnlyOne A.isFlush B.isFlush A B r with
  | none => simp
  | some result =>
    cases hd : result.isDraw <;> simp [hd, highCard_symm]

theorem fullHouse_symm (A B : Hand) (r : String) :
    fullHouse B A r = fullHouse A B r := by
  unfold fullHouse
  rw [neitherOrOnlyOne_symm]
  cases hg : neitherOrOnlyOne A.fullHouse.isSome B.fullHouse.isSome A B r with
  | none => simp
  | some result =>
    cases hd : result.isDraw
    · simp [hd]
    · simp only [hd, if_true]
      rcases ha : A.fullHouse with _ | f1 <;> rcases hb : B.fullHouse with _ | f2 <;>
        simp [compareFaces_symm]

theorem fourOfAKind_symm (A B : Hand) (r : String) :
    fourOfAKind B A r = fourOfAKind A B r := by
  unfold fourOfAKind
  rw [neitherOrOnlyOne_symm]
  cases hg : neitherOrOnlyOne A.quartet.1.isSome B.quartet.1.isSome A B r with
  | none => simp
  | some result =>
    cases hd : result.isDraw
    · simp [hd]
    · simp only [hd, if_true]
      rcases ha : A.quartet.1 with _ | f1 <;> rcases hb : B.quartet.1 with _ | f2 <;>
        simp [compareFaces_symm]

theorem straightFlush_symm (A B : Hand) (r : String) :
    straightFlush B A r = straightFlush A B r := by
  unfold straightFlush
  cases ha : A.straight with
  | error e =>
    cases hb : B.straight with
    | error e' => rw [straight_error A e ha, straight_error B e' hb]
    | ok ob => rfl
  | ok oa =>
    cases hb : B.straight with
    | error e' => rfl
    | ok ob =>
      dsimp only
      rw [neitherOrOnlyOne_symm]
      cases hg : neitherOrOnlyOne (oa.isSome && A.isFlush) (ob.isSome && B.isFlush) A B r with
      | none => simp
      | some result =>
        cases hd : result.isDraw <;> simp [hd, highCard_symm]

theorem categoryRanker_symm (c : Category) (A B : Hand) :
    categoryRanker c B A = categoryRanker c A B := by
  cases c <;> simp only [categoryRanker]
  case straightFlush => exact straightFlush_symm A B _
  case fourOfAKind => exact fourOfAKind_symm A B _
  case fullHouse => exact fullHouse_symm A B _
  case flush => exact flush_symm A B _
  case straight => exact straight_ranker_symm A B _
  case threeOfAKind => exact threeOfAKind_symm A B _
  case twoPairs => exact twoPairs_symm A B _
  case twoOfAKind => exact twoOfAKind_symm A B _
  case highCard => rw [highCard_symm]

theorem tryCategories_symm (A B : Hand) :
    ∀ cs : List Category, tryCategories B A cs = tryCategories A B cs := by
  intro cs
  induction cs with
  | nil => rfl
  | cons c rest ih =>
    simp only [tryCategories, categoryRanker_symm c A B]
    cases categoryRanker c A B with
    | error e => rfl
    | ok o => cases o <;> simp [ih]

/-- Swapping the argument order leaves the outcome of `rank` unchanged —
including the reason string and any raised exception. -/
theorem rank_symm (A B : Hand) : rank B A = rank A B :=
  tryCategories_symm A B categoryOrder

/-- **C5.** For every pair of valid 5-card Hands on which ranking returns a
Result, `rank H1 H2` and `rank H2 H1` name the same winning owner or both
report Draw.  In fact the two calls return the *identical* Result value, so
an attached tie-break reason mentions the same Face names in both (the code
builds the reason from the larger face first in either call). -/
theorem C5_rank_symmetric (A B : Hand) (hA : validHand A) (hB : validHand B)
    (res : Result) (h : rank A B = .ok (some res)) :
    rank B A = .ok (some res) := by
  rw [rank_symm]
  exact h

theorem C5_rank_symmetric_witness :
    validHand wHandSF ∧ validHand wHandHC ∧
      rank wHandSF wHandHC = .ok (some (.win "Black" "Straight Flush")) ∧
      rank wHandHC wHandSF = .ok (some (.win "Black" "Straight Flush")) :=
  ⟨by decide, by decide, by decide,
    C5_rank_symmetric wHandSF wHandHC (by decide) (by decide) _ (by decide)⟩

/-! ### Straights compare by their top face -/

theorem face_val_int_inj {f g : Face} (h : (f.val : Int) = (g.val : Int)) : f = g := by
  apply Fin.ext
  exact_mod_cast h

/-- When both hands are straights, the `highCard` walk over the full hands is
equivalent to comparing the two top faces (the face sequences are consecutive
runs, so the first position already decides, or every position draws). -/
theorem highCard_of_straights (A B : Hand) (r : String) (t1 t2 : Face)
    (hA5 : A.cards.length = 5) (hB5 : B.cards.length = 5)
    (ha : A.straight = .ok (some t1)) (hb : B.straight = .ok (some t2)) :
    highCard A B r = compareFaces t1 t2 A B r := by
  obtain ⟨a1, b1, c1, d1, e1, hdA, hfA, k1, k2, k3, k4⟩ := straight_run A t1 hA5 ha
  obtain ⟨a2, b2, c2, d2, e2, hdB, hfB, m1, m2, m3, m4⟩ := straight_run B t2 hB5 hb
  unfold highCard
  rw [hdA, hdB]
  simp only [List.zip_cons_cons, List.zip_nil_right]
  rcases lt_trichotomy t1 t2 with hlt | hEq | hlt
  · have hne : (compareFaces a1.face a2.face A B r).isDraw = false := by
      rw [hfA, hfB]
      cases hq : (compareFaces t1 t2 A B r).isDraw
      · rfl
      · exact absurd (compareFaces_isDraw_iff.mp hq) (ne_of_lt hlt)
    simp only [deepComparison, hne, Bool.false_eq_true, if_false]
    rw [hfA, hfB]
  · have hfaces : ([a1, b1, c1, d1, e1].map Card.face) =
        ([a2, b2, c2, d2, e2].map Card.face) := by
      have h1 : a1.face = a2.face := by rw [hfA, hfB, hEq]
      have hv : (t1.val : Int) = (t2.val : Int) := by rw [hEq]
      have h2 : b1.face = b2.face := by
        apply face_val_int_inj
        rw [hfA] at k1
        rw [hfB] at m1
        omega
      have h3 : c1.face = c2.face := by
        apply face_val_int_inj
        rw [hfA] at k1
        rw [hfB] at m1
        omega
      have h4 : d1.face = d2.face := by
        apply face_val_int_inj
        rw [hfA] at k1
        rw [hfB] at m1
        omega
      have h5 : e1.face = e2.face := by
        apply face_val_int_inj
        rw [hfA] at k1
        rw [hfB] at m1
        omega
      simp [h1, h2, h3, h4, h5]
    have hdraw := deepComparison_draw A B r _
      (zip_faces_eq [a1, b1, c1, d1, e1] [a2, b2, c2, d2, e2] hfaces)
    simp only [List.zip_cons_cons, List.zip_nil_right] at hdraw
    rw [hdraw, hEq, compareFaces_self]
  · have hne : (compareFaces a1.face a2.face A B r).isDraw = false := by
      rw [hfA, hfB]
      cases hq : (compareFaces t1 t2 A B r).isDraw
      · rfl
      · exact absurd (compareFaces_isDraw_iff.mp hq) (ne_of_gt hlt)
    simp only [deepComparison, hne, Bool.false_eq_true, if_false]
    rw [hfA, hfB]

/-- **C3.** For Straight and Straight Flush, when both 5-card hands qualify
for the category, the ranker never raises and its outcome equals comparing
the two straights' top Faces: a Win with that top-face tie-break when they
differ, and a Draw when the top Faces are equal.  For Straight Flush the
`highCard` walk over the full hands equals the top-face comparison, since
both face sequences are consecutive runs. -/
theorem C3_straight_rankers (A B : Hand)
    (hA5 : A.cards.length = 5) (hB5 : B.cards.length = 5) (t1 t2 : Face)
    (ha : A.straight = .ok (some t1)) (hb : B.straight = .ok (some t2)) :
    straight A B "Straight" = .ok (some (compareFaces t1 t2 A B "Straight")) ∧
    (t1 = t2 → straight A B "Straight" = .ok (some .draw)) ∧
    (A.isFlush = true → B.isFlush = true →
      straightFlush A B "Straight Flush" =
        .ok (some (compareFaces t1 t2 A B "Straight Flush")) ∧
      (t1 = t2 → straightFlush A B "Straight Flush" = .ok (some .draw))) := by
  refine ⟨straight_both A B _ t1 t2 ha hb, ?_, ?_⟩
  · intro hEq
    rw [straight_both A B _ t1 t2 ha hb, hEq, compareFaces_self]
  · intro hfA hfB
    have hsf := straightFlush_both A B "Straight Flush" t1 t2 ha hb hfA hfB
    rw [highCard_of_straights A B _ t1 t2 hA5 hB5 ha hb] at hsf
    refine ⟨hsf, fun hEq => ?_⟩
    rw [hsf, hEq, compareFaces_self]

/-- The straight 2D 3S 4H 5D 6D for Black. -/
def wStraightA : Hand :=
  ⟨"Black", [⟨0, .diamonds⟩, ⟨1, .spades⟩, ⟨2, .hearts⟩, ⟨3, .diamonds⟩, ⟨4, .diamonds⟩]⟩

/-- The straight 2S 3D 4C 5C 6C for White. -/
def wStraightB : Hand :=
  ⟨"White", [⟨0, .spades⟩, ⟨1, .diamonds⟩, ⟨2, .clubs⟩, ⟨3, .clubs⟩, ⟨4, .clubs⟩]⟩

theorem C3_straight_rankers_witness :
    wStraightA.cards.length = 5 ∧ wStraightB.cards.length = 5 ∧
      wStraightA.straight = .ok (some 4) ∧ wStraightB.straight = .ok (some 4) ∧
      straight wStraightA wStraightB "Straight" =
        .ok (some (compareFaces 4 4 wStraightA wStraightB "Straight")) ∧
      straight wStraightA wStraightB "Straight" = .ok (some .draw) :=
  ⟨by decide, by decide, by decide, by decide,
    (C3_straight_rankers wStraightA wStraightB (by decide) (by decide) 4 4
      (by decide) (by decide)).1,
    (C3_straight_rankers wStraightA wStraightB (by decide) (by decide) 4 4
      (by decide) (by decide)).2.1 rfl⟩

/-! ### The `pair()` detector -/

/-- **C7.** For every valid 5-card Hand: if at least one Face occurs exactly
twice, `pair()` returns the highest such Face together with a new residual
Hand consisting of exactly the 3 cards whose face differs from it, preserving
the owner label; if no Face occurs exactly twice (including when a face
occurs 3 or 4 times), `pair()` returns `(none, the original Hand itself)`. -/
theorem C7_pair_spec (h : Hand) (h5 : h.cards.length = 5) :
    ((∃ f, h.faceCount f = 2) →
      ∃ fmax, h.pair.1 = some fmax ∧ h.faceCount fmax = 2 ∧
        (∀ g, h.faceCount g = 2 → g ≤ fmax) ∧
        h.pair.2.colour = h.colour ∧
        h.pair.2.cards.length = 3 ∧
        (∀ c, c ∈ h.pair.2.cards ↔ c ∈ h.cards ∧ c.face ≠ fmax)) ∧
    ((∀ f, h.faceCount f ≠ 2) → h.pair = (none, h)) := by
  constructor
  · rintro ⟨f0, hf0⟩
    rcases hq : h.facesOccuringTimes 2 with _ | ⟨fmax, rest⟩
    · exact absurd hf0 ((facesOccuringTimes_eq_nil_iff h 2).mp hq f0)
    · obtain ⟨hcnt, hmax⟩ := facesOccuringTimes_head h 2 fmax rest hq
      refine ⟨fmax, by simp [Hand.pair, hq], hcnt, hmax, by simp [Hand.pair, hq], ?_, ?_⟩
      · have hsplit : h.cards.length = h.cards.countP (fun c => c.face == fmax) +
            h.cards.countP (fun c => c.face != fmax) := by
          rw [List.length_eq_countP_add_countP (fun c => c.face == fmax)]
          congr 1
          apply List.countP_congr
          intro c _
          simp [bne]
        have hfc : h.cards.countP (fun c => c.face == fmax) = 2 := by
          rw [← faceCount_eq_countP]
          exact hcnt
        have hres : h.pair.2.cards = h.cards.filter (fun c => c.face != fmax) := by
          simp [Hand.pair, hq]
        rw [hres, ← List.countP_eq_length_filter]
        omega
      · intro c
        have hres : h.pair.2.cards = h.cards.filter (fun c => c.face != fmax) := by
          simp [Hand.pair, hq]
        rw [hres, List.mem_filter]
        simp
  · intro hnone
    have hq : h.facesOccuringTimes 2 = [] := (facesOccuringTimes_eq_nil_iff h 2).mpr hnone
    simp [Hand.pair, hq]

/-- Black: 2D 2S 4D 5D 6D — a single pair of 2s. -/
def wPairHand : Hand :=
  ⟨"Black", [⟨0, .diamonds⟩, ⟨0, .spades⟩, ⟨2, .diamonds⟩, ⟨3, .diamonds⟩, ⟨4, .diamonds⟩]⟩

theorem C7_pair_spec_witness :
    wPairHand.cards.length = 5 ∧ wPairHand.faceCount 0 = 2 ∧
      (∃ fmax, wPairHand.pair.1 = some fmax ∧ wPairHand.faceCount fmax = 2 ∧
        (∀ g, wPairHand.faceCount g = 2 → g ≤ fmax) ∧
        wPairHand.pair.2.colour = wPairHand.colour ∧
        wPairHand.pair.2.cards.length = 3 ∧
        (∀ c, c ∈ wPairHand.pair.2.cards ↔ c ∈ wPairHand.cards ∧ c.face ≠ fmax)) :=
  ⟨by decide, by decide,
    (C7_pair_spec wPairHand (by decide)).1 ⟨0, by decide⟩⟩

/-! ### Scenario 6, the short-hand IndexError, and set semantics -/

/-- Black's straight flush 2H 3H 4H 5H 6H as parsed. -/
def scen6Black : Hand :=
  ⟨"Black", [⟨0, .hearts⟩, ⟨1, .hearts⟩, ⟨2, .hearts⟩, ⟨3, .hearts⟩, ⟨4, .hearts⟩]⟩

/-- White's hand as parsed from `AC AH AS AS KH`: the repeated `AS` collapses
in the string set, leaving four cards. -/
def scen6White : Hand :=
  ⟨"White", [⟨12, .clubs⟩, ⟨12, .hearts⟩, ⟨12, .spades⟩, ⟨11, .hearts⟩]⟩

/-- **C8.** For the literal scenario where Black holds 2H 3H 4H 5H 6H and
White holds AC AH AS AS KH (the repeated AS collapses, so White's card set is
not 5 distinct cards), ranking returns Win for Black with reason
"Straight Flush", taking precedence over White's aces. -/
theorem C8_scenario6 :
    Hand.fromRepList "Black" ["2H", "3H", "4H", "5H", "6H"] = some scen6Black ∧
    Hand.fromRepList "White" ["AC", "AH", "AS", "AS", "KH"] = some scen6White ∧
    scen6White.cards.length = 4 ∧
    rank scen6Black scen6White = .ok (some (.win "Black" "Straight Flush")) := by
  decide

/-- The hand parsed from `3H 4H 5H 6H 6H`: the duplicated `6H` collapses,
leaving four cards whose top faces are consecutive. -/
def shortHand : Hand :=
  ⟨"X", [⟨1, .hearts⟩, ⟨2, .hearts⟩, ⟨3, .hearts⟩, ⟨4, .hearts⟩]⟩

/-- **C9.** `straight()` is total under the exactly-5-cards precondition: on
every 5-card Hand it returns without error; but a constructible Hand with
fewer cards (built from a card list whose duplicate collapsed in the set,
leaving 4 cards with consecutive top faces) makes `straight()` raise
`IndexError` by indexing past the end of the descending face list. -/
theorem C9_straight_totality :
    (∀ h : Hand, h.cards.length = 5 → ∃ o, h.straight = .ok o) ∧
    Hand.fromRepList "X" ["3H", "4H", "5H", "6H", "6H"] = some shortHand ∧
    shortHand.cards.length = 4 ∧
    shortHand.straight = .error .indexError :=
  ⟨fun h h5 => straight_ok_of_length h h5, by decide, by decide, by decide⟩

theorem C9_straight_totality_witness :
    ∃ o, wHandHC.straight = Except.ok o :=
  C9_straight_totality.1 wHandHC (by decide)

/-- Inserting hash-distinct cards into a CPython set drops nothing. -/
theorem pySet_foldl_of_distinct_keys :
    ∀ l : List Card, ∀ acc : List Card,
      (∀ c ∈ l, ∀ d ∈ acc, d.hashKey ≠ c.hashKey) →
      l.Pairwise (fun c d => c.hashKey ≠ d.hashKey) →
      l.foldl pySetInsert acc = acc ++ l := by
  intro l
  induction l with
  | nil => intro acc _ _; simp
  | cons c cs ih =>
    intro acc hdisj hpw
    have hins : pySetInsert acc c = acc ++ [c] := by
      unfold pySetInsert
      have hany : acc.any (fun d => d.hashKey == c.hashKey && d.pyEq c) = false := by
        rw [List.any_eq_false]
        intro d hd
        simp only [Bool.and_eq_true, not_and]
        intro hkey
        exact absurd (by simpa using hkey) (hdisj c (List.mem_cons_self c cs) d hd)
      simp [hany]
    rw [List.foldl_cons, hins,
      ih (acc ++ [c])
        (fun x hx d hd => by
          rcases List.mem_append.mp hd with hd | hd
          · exact hdisj x (List.mem_cons_of_mem c hx) d hd
          · have : d = c := by simpa using hd
            exact this ▸ (List.pairwise_cons.mp hpw).1 x hx)
        (List.pairwise_cons.mp hpw).2,
      List.append_assoc]
    rfl

/-- The ace of spades. -/
def cardAS : Card := ⟨12, .spades⟩

/-- The ace of clubs. -/
def cardAC : Card := ⟨12, .clubs⟩

/-- Four aces and a king: repeated faces, pairwise-distinct (face, suit). -/
def acesList : List Card :=
  [⟨12, .spades⟩, ⟨12, .clubs⟩, ⟨12, .hearts⟩, ⟨12, .diamonds⟩, ⟨11, .hearts⟩]

/-- **C10.** Card equality is not consistent with Card hashing: two Cards of
equal Face and different Suits compare equal under Card `==` yet have
distinct hash keys; consequently a card set built from 5 cards with
pairwise-distinct (Face, Suit) pairs retains all 5 cards even when faces
repeat, while two textually identical cards collapse to one. -/
theorem C10_card_eq_hash_inconsistent :
    (Card.pyEq cardAS cardAC = true ∧ cardAS.hashKey ≠ cardAC.hashKey) ∧
    (∀ l : List Card, l.length = 5 →
      l.Pairwise (fun c d => c.hashKey ≠ d.hashKey) →
      pySetOfCards l = l ∧ (pySetOfCards l).length = 5) ∧
    pySetOfCards [cardAS, cardAS] = [cardAS] := by
  refine ⟨⟨by decide, by decide⟩, ?_, by decide⟩
  intro l h5 hpw
  have h := pySet_foldl_of_distinct_keys l [] (by simp) hpw
  unfold pySetOfCards
  rw [h]
  simpa using h5

theorem C10_card_eq_hash_inconsistent_witness :
    pySetOfCards acesList = acesList ∧ (pySetOfCards acesList).length = 5 :=
  C10_card_eq_hash_inconsistent.2.1 acesList (by decide) (by decide)

/-! ### Detector counts and the InvalidCardDeck aborts -/

theorem triplet_count (h : Hand) (f : Face) (ht : h.triplet.1 = some f) :
    h.faceCount f = 3 := by
  unfold Hand.triplet at ht
  rcases he : h.facesOccuringTimes 3 with _ | ⟨g, rest⟩ <;> rw [he] at ht
  · simp at ht
  · have hg : g = f := by simpa using ht
    exact hg ▸ (facesOccuringTimes_head h 3 g rest he).1

theorem quartet_count (h : Hand) (f : Face) (ht : h.quartet.1 = some f) :
    h.faceCount f = 4 := by
  unfold Hand.quartet at ht
  rcases he : h.facesOccuringTimes 4 with _ | ⟨g, rest⟩ <;> rw [he] at ht
  · simp at ht
  · have hg : g = f := by simpa using ht
    exact hg ▸ (facesOccuringTimes_head h 4 g rest he).1

theorem fullHouse_triplet (h : Hand) (f : Face) (hf : h.fullHouse = some f) :
    h.triplet.1 = some f := by
  unfold Hand.fullHouse at hf
  rcases ht : h.triplet with ⟨ot, rem⟩
  rw [ht] at hf
  cases ot with
  | none => simp at hf
  | some t =>
    dsimp only at hf
    rcases hp : rem.pair with ⟨op, rem2⟩
    rw [hp] at hf
    cases op with
    | none => simp at hf
    | some p =>
      have hEq : t = f := by simpa using hf
      simp [hEq]

/-- A 5-card hand with a triplet cannot also hold a quartet. -/
theorem quartet_none_of_triplet (h : Hand) (h5 : h.cards.length = 5) (f : Face)
    (hf : h.faceCount f = 3) : h.quartet.1 = none := by
  rcases hq : h.quartet.1 with _ | g
  · rfl
  · exfalso
    have hg := quartet_count h g hq
    have hne : f ≠ g := by
      intro hEq
      rw [hEq, hg] at hf
      exact absurd hf (by omega)
    have hsum := countP_add_le_length (fun c => c.face == f) (fun c => c.face == g)
      h.cards (fun x _ hx => hne (by
        have h1 : x.face = f := by simpa using hx.1
        have h2 : x.face = g := by simpa using hx.2
        rw [← h1, h2]))
    rw [← faceCount_eq_countP, ← faceCount_eq_countP, hf, hg, h5] at hsum
    omega

theorem tryCategories_cons_none (A B : Hand) (c : Category) (cs : List Category)
    (h : categoryRanker c A B = .ok none) :
    tryCategories A B (c :: cs) = tryCategories A B cs := by
  simp [tryCategories, h]

theorem tryCategories_cons_error (A B : Hand) (c : Category) (cs : List Category)
    (e : PyError) (h : categoryRanker c A B = .error e) :
    tryCategories A B (c :: cs) = .error e := by
  simp [tryCategories, h]

/-- Both hands hold a quartet of the same face: `rank` aborts with
`InvalidCardDeck` (straight flush is inapplicable, four of a kind raises). -/
theorem rank_aborts_on_equal_quartets (A B : Hand)
    (hA : validHand A) (hB : validHand B) (f : Face)
    (ha : A.quartet.1 = some f) (hb : B.quartet.1 = some f) :
    rank A B = .error (.invalidCardDeck "Two quartets with same faces?") := by
  have hsA : A.straight = .ok none :=
    straight_none_of_count A hA.1 f (by rw [quartet_count A f ha]; omega)
  have hsB : B.straight = .ok none :=
    straight_none_of_count B hB.1 f (by rw [quartet_count B f hb]; omega)
  have h1 : categoryRanker .straightFlush A B = .ok none := by
    apply ranker_neither _ _ _ hA hB <;>
      simp [qualifies, straightQ_eq _ _ hsA, straightQ_eq _ _ hsB]
  have h2 : categoryRanker .fourOfAKind A B =
      .error (.invalidCardDeck "Two quartets with same faces?") := by
    simp only [categoryRanker]
    exact fourOfAKind_both_eq A B _ f ha hb
  unfold rank categoryOrder
  rw [tryCategories_cons_none A B _ _ h1, tryCategories_cons_error A B _ _ _ h2]

/-- Both hands hold a full house with the same triplet face: `rank` aborts
with `InvalidCardDeck` when it reaches the full-house category. -/
theorem rank_aborts_on_equal_full_houses (A B : Hand)
    (hA : validHand A) (hB : validHand B) (f : Face)
    (ha : A.fullHouse = some f) (hb : B.fullHouse = some f) :
    rank A B = .error (.invalidCardDeck "Two triplets with same faces?") := by
  have htA := triplet_count A f (fullHouse_triplet A f ha)
  have htB := triplet_count B f (fullHouse_triplet B f hb)
  have hsA : A.straight = .ok none :=
    straight_none_of_count A hA.1 f (by omega)
  have hsB : B.straight = .ok none :=
    straight_none_of_count B hB.1 f (by omega)
  have h1 : categoryRanker .straightFlush A B = .ok none := by
    apply ranker_neither _ _ _ hA hB <;>
      simp [qualifies, straightQ_eq _ _ hsA, straightQ_eq _ _ hsB]
  have h2 : categoryRanker .fourOfAKind A B = .ok none := by
    apply ranker_neither _ _ _ hA hB <;>
      simp [qualifies, quartet_none_of_triplet A hA.1 f htA,
        quartet_none_of_triplet B hB.1 f htB]
  have h3 : categoryRanker .fullHouse A B =
      .error (.invalidCardDeck "Two triplets with same faces?") := by
    simp only [categoryRanker]
    exact fullHouse_both_eq A B _ f ha hb
  unfold rank categoryOrder
  rw [tryCategories_cons_none A B _ _ h1, tryCategories_cons_none A B _ _ h2,
    tryCategories_cons_error A B _ _ _ h3]

/-- Both hands hold a bare triplet of the same face (no full house): `rank`
aborts with `InvalidCardDeck` when it reaches the three-of-a-kind category. -/
theorem rank_aborts_on_equal_triplets (A B : Hand)
    (hA : validHand A) (hB : validHand B) (f : Face)
    (ha : A.triplet.1 = some f) (hb : B.triplet.1 = some f)
    (hfa : A.fullHouse = none) (hfb : B.fullHouse = none) :
    rank A B = .error (.invalidCardDeck "Two triplets with same faces?") := by
  have htA := triplet_count A f ha
  have htB := triplet_count B f hb
  have hsA : A.straight = .ok none := straight_none_of_count A hA.1 f (by omega)
  have hsB : B.straight = .ok none := straight_none_of_count B hB.1 f (by omega)
  have hflA : A.isFlush = false := not_flush_of_repeated_face A hA.1 hA.2 f (by omega)
  have hflB : B.isFlush = false := not_flush_of_repeated_face B hB.1 hB.2 f (by omega)
  have h1 : categoryRanker .straightFlush A B = .ok none := by
    apply ranker_neither _ _ _ hA hB <;>
      simp [qualifies, straightQ_eq _ _ hsA, straightQ_eq _ _ hsB]
  have h2 : categoryRanker .fourOfAKind A B = .ok none := by
    apply ranker_neither _ _ _ hA hB <;>
      simp [qualifies, quartet_none_of_triplet A hA.1 f htA,
        quartet_none_of_triplet B hB.1 f htB]
  have h3 : categoryRanker .fullHouse A B = .ok none := by
    apply ranker_neither _ _ _ hA hB <;> simp [qualifies, hfa, hfb]
  have h4 : categoryRanker .flush A B = .ok none := by
    apply ranker_neither _ _ _ hA hB <;> simp [qualifies, hflA, hflB]
  have h5 : categoryRanker .straight A B = .ok none := by
    apply ranker_neither _ _ _ hA hB <;>
      simp [qualifies, straightQ_eq _ _ hsA, straightQ_eq _ _ hsB]
  have h6 : categoryRanker .threeOfAKind A B =
      .error (.invalidCardDeck "Two triplets with same faces?") := by
    simp only [categoryRanker]
    exact threeOfAKind_both_eq A B _ f ha hb
  unfold rank categoryOrder
  rw [tryCategories_cons_none A B _ _ h1, tryCategories_cons_none A B _ _ h2,
    tryCategories_cons_none A B _ _ h3, tryCategories_cons_none A B _ _ h4,
    tryCategories_cons_none A B _ _ h5, tryCategories_cons_error A B _ _ _ h6]

/-- Black: 2D 2H 2S 3D 3H — a full house whose triplet face is 2. -/
def cexBlack : Hand :=
  ⟨"Black", [⟨0, .diamonds⟩, ⟨0, .hearts⟩, ⟨0, .spades⟩, ⟨1, .diamonds⟩, ⟨1, .hearts⟩]⟩

/-- White: 2C 2D 2S 4C 5C — a bare triplet whose face is also 2. -/
def cexWhite : Hand :=
  ⟨"White", [⟨0, .clubs⟩, ⟨0, .diamonds⟩, ⟨0, .spades⟩, ⟨2, .clubs⟩, ⟨3, .clubs⟩]⟩

/-- **C2, counterexample.**  Both hands qualify for Three of a Kind with the
same matched face (2), yet ranking does *not* raise: the pair resolves at the
higher-precedence Full House category and a Result is produced. -/
theorem C2_counterexample :
    validHand cexBlack ∧ validHand cexWhite ∧
    cexBlack.triplet.1 = some 0 ∧ cexWhite.triplet.1 = some 0 ∧
    rank cexBlack cexWhite = .ok (some (.win "Black" "Full House")) := by
  decide

/-- **C2 (amended).** For Three of a Kind, Full House, and Four of a Kind:
whenever both hands qualify for the category with equal matched Faces, the
category ranker itself raises `InvalidCardDeck` instead of returning a Draw.
At the `rank` level the raise aborts the whole call — no lower-precedence
category is evaluated and no Result is produced — whenever the raising
category is actually reached: unconditionally for Four of a Kind and Full
House, and for Three of a Kind provided neither hand also qualifies for Full
House (otherwise the pair resolves at Full House first, as the
counterexample shows). -/
theorem C2_amended_invalid_deck (A B : Hand) (hA : validHand A) (hB : validHand B) :
    (∀ f, A.triplet.1 = some f → B.triplet.1 = some f →
      threeOfAKind A B "Three of a Kind" =
        .error (.invalidCardDeck "Two triplets with same faces?")) ∧
    (∀ f, A.fullHouse = some f → B.fullHouse = some f →
      fullHouse A B "Full House" =
        .error (.invalidCardDeck "Two triplets with same faces?")) ∧
    (∀ f, A.quartet.1 = some f → B.quartet.1 = some f →
      fourOfAKind A B "Four of a Kind" =
        .error (.invalidCardDeck "Two quartets with same faces?")) ∧
    (∀ f, A.quartet.1 = some f → B.quartet.1 = some f →
      rank A B = .error (.invalidCardDeck "Two quartets with same faces?")) ∧
    (∀ f, A.fullHouse = some f → B.fullHouse = some f →
      rank A B = .error (.invalidCardDeck "Two triplets with same faces?")) ∧
    (∀ f, A.triplet.1 = some f → B.triplet.1 = some f →
      A.fullHouse = none → B.fullHouse = none →
      rank A B = .error (.invalidCardDeck "Two triplets with same faces?")) :=
  ⟨fun f ha hb => threeOfAKind_both_eq A B _ f ha hb,
   fun f ha hb => fullHouse_both_eq A B _ f ha hb,
   fun f ha hb => fourOfAKind_both_eq A B _ f ha hb,
   fun f ha hb => rank_aborts_on_equal_quartets A B hA hB f ha hb,
   fun f ha hb => rank_aborts_on_equal_full_houses A B hA hB f ha hb,
   fun f ha hb hfa hfb => rank_aborts_on_equal_triplets A B hA hB f ha hb hfa hfb⟩

/-- Black: 2D 2C 2H 2S 6D — a quartet of 2s. -/
def wQuadA : Hand :=
  ⟨"Black", [⟨0, .diamonds⟩, ⟨0, .clubs⟩, ⟨0, .hearts⟩, ⟨0, .spades⟩, ⟨4, .diamonds⟩]⟩

/-- White: 2D 2C 2H 2S 7D — a quartet of 2s from another deck. -/
def wQuadB : Hand :=
  ⟨"White", [⟨0, .diamonds⟩, ⟨0, .clubs⟩, ⟨0, .hearts⟩, ⟨0, .spades⟩, ⟨5, .diamonds⟩]⟩

theorem C2_amended_invalid_deck_witness :
    validHand wQuadA ∧ validHand wQuadB ∧
      wQuadA.quartet.1 = some 0 ∧ wQuadB.quartet.1 = some 0 ∧
      rank wQuadA wQuadB = .error (.invalidCardDeck "Two quartets with same faces?") :=
  ⟨by decide, by decide, by decide, by decide,
    (C2_amended_invalid_deck wQuadA wQuadB (by decide) (by decide)).2.2.2.1 0
      (by decide) (by decide)⟩

end Poker
